import Mathlib

/-!
Verification development for the mileage-calculator repository.

The repository has two entry points built on the same external geocoding and
routing API:
  * `src/generateMileageTable.js` — a batch Node script that geocodes a fixed
    alias table of locations, computes driving distances for all unordered
    pairs, caches API results in two JSON files, and emits a mileage table
    keyed by `"A|B"` in both directions;
  * `src/unnamed/part_000` — an interactive browser tool that geocodes
    user-entered addresses, requests one route over the whole sequence and
    renders a per-leg mileage table.

Numbers are embedded as exact rationals (JS numbers are binary doubles; the
two-decimal rounding used by the code is far from any representation
boundary for the concrete values treated here).  JS objects used as string
maps are embedded as association lists in insertion order, which is exactly
the observable behavior of JS objects with non-index string keys.
-/

namespace Mileage

/-- `metersToMiles` from both source files: `m / 1609.344`. -/
def metersToMiles (m : ℚ) : ℚ := m / 1609.344

/-- Rounding a number to two decimal places.  This models both
`parseFloat(x.toFixed(2))` in the batch script and the rendered text of
`x.toFixed(2)` in the interactive tool. -/
def round2 (q : ℚ) : ℚ := (round (q * 100) : ℚ) / 100

/-- Model of JS `String.prototype.split` with a one-character separator,
acting on the character list of the string.  `""` splits to `[""]`, and
separators at the ends produce empty fragments, as in JS. -/
def jsSplit (sep : Char) : List Char → List (List Char)
  | [] => [[]]
  | a :: rest =>
    if a = sep then [] :: jsSplit sep rest
    else
      match jsSplit sep rest with
      | [] => [[a]]
      | l :: ls => (a :: l) :: ls

/-- Model of JS `String.prototype.trim`: drop whitespace from both ends. -/
def jsTrim (l : List Char) : List Char :=
  ((l.dropWhile Char.isWhitespace).reverse.dropWhile Char.isWhitespace).reverse

/-- A string not containing the `'|'` separator used to build pair keys.
The location identifiers of the batch script (`HOME`, `LS`, `JACOBS`,
`OFFICE`) all satisfy this. -/
def pipeFree (s : String) : Prop := '|' ∉ s.data

instance (s : String) : Decidable (pipeFree s) := by
  unfold pipeFree; infer_instance

/-- The directional pair key `` `${A}|${B}` `` of the batch script. -/
def pk (a b : String) : String := a ++ "|" ++ b

/-- Association-list lookup, modelling JS property read `obj[k]` (`none`
plays the role of `undefined`). -/
def getVal {α : Type} : List (String × α) → String → Option α
  | [], _ => none
  | (k, v) :: rest, key => if k = key then some v else getVal rest key

/-- Association-list update, modelling JS property write `obj[k] = v`:
overwrite in place if the key exists, otherwise append. -/
def setKey {α : Type} : List (String × α) → String → α → List (String × α)
  | [], key, v => [(key, v)]
  | (k, w) :: rest, key, v =>
    if k = key then (k, v) :: rest else (k, w) :: setKey rest key v

/-- A geocoded coordinate `{ lat, lon }` as stored by the batch script. -/
structure Coord where
  lat : ℚ
  lon : ℚ
deriving DecidableEq, Repr

/-- The in-memory `geoCache` object: address string → cached value.  A
cached `some c` is a JS object (always truthy); a cached `none` models a
JSON `null` in the cache file (falsy). -/
abbrev GeoCache := List (String × Option Coord)

/-- The in-memory `routeCache` object: pair key → cached meter count. -/
abbrev RouteCache := List (String × ℚ)

/-- A mileage table under construction (the `table` object). -/
abbrev Table := List (String × ℚ)

/-- The external services behind `fetch` as used by the batch script: a
geocoding lookup giving the top-ranked coordinate for an address, and a
routing lookup giving a driving distance in meters for two coordinates.
Only successful responses are modelled; a failing response aborts the whole
run in the source. -/
structure BatchEnv where
  geoNet : String → Coord
  routeNet : Coord → Coord → ℚ

/-- `geocode(address)` from `generateMileageTable.js`: return the cached
coordinate when the cache holds a truthy value for the address, otherwise
fetch, store and return the fresh coordinate.  Result: the coordinate, the
updated cache, and the number of network requests issued (0 or 1). -/
def geocode (env : BatchEnv) (gc : GeoCache) (address : String) :
    Coord × GeoCache × Nat :=
  match getVal gc address with
  | some (some c) => (c, gc, 0)
  | _ =>
    let c := env.geoNet address
    (c, setKey gc address (some c), 1)

/-- `getMeters(coordA, coordB, pairKey)` from `generateMileageTable.js`:
return the cached meter count when it is truthy (a number is truthy in JS
iff it is nonzero), otherwise fetch, store and return the fresh count. -/
def getMeters (env : BatchEnv) (rc : RouteCache) (coordA coordB : Coord)
    (pairKey : String) : ℚ × RouteCache × Nat :=
  match getVal rc pairKey with
  | some m =>
    if m = 0 then
      let m' := env.routeNet coordA coordB
      (m', setKey rc pairKey m', 1)
    else (m, rc, 0)
  | none =>
    let m' := env.routeNet coordA coordB
    (m', setKey rc pairKey m', 1)

/-- The `LOCATION_ALIAS` mapping of the batch script (with the default
value of the `HOME_ADDR` environment variable). -/
def LOCATION_ALIAS : List (String × String) :=
  [("HOME", "123 Fake St, Springfield IL"),
   ("LS", "200 Lakeshore Rd, Springfield IL"),
   ("JACOBS", "14 Jacobs Ct, Springfield IL"),
   ("OFFICE", "500 Corporate Dr, Springfield IL")]

/-- Result of the geocoding phase of the batch main script: the `coords`
object (location key → coordinate, in insertion order), the geo cache after
the loop, and the number of geocoding requests issued. -/
structure GeoPhaseResult where
  coords : List (String × Coord)
  geoCache : GeoCache
  requests : Nat
deriving Repr

/-- The geocoding loop of the batch main script:
`for (const key of keys) { coords[key] = await geocode(LOCATION_ALIAS[key]) }`. -/
def geocodePhase (env : BatchEnv) :
    List (String × String) → GeoCache → GeoPhaseResult
  | [], gc => ⟨[], gc, 0⟩
  | (key, addr) :: rest, gc =>
    let g := geocode env gc addr
    let r := geocodePhase env rest g.2.1
    ⟨(key, g.1) :: r.coords, r.geoCache, g.2.2 + r.requests⟩

/-- The index pairs visited by the nested pair loop of the batch script:
`for (let i = 0; i < n; i++) for (let j = i + 1; j < n; j++)`. -/
def pairIndices (n : ℕ) : List (ℕ × ℕ) :=
  (List.range n).flatMap fun i =>
    (List.range' (i + 1) (n - (i + 1))).map fun j => (i, j)

/-- `keys[i]` in the pair loop (the index is always in range there). -/
def keyAt (keys : List String) (i : ℕ) : String := keys.getD i ""

/-- `coords[A]` in the pair loop (the key is always present there). -/
def coordAt (coords : List (String × Coord)) (a : String) : Coord :=
  (getVal coords a).getD ⟨0, 0⟩

/-- `table[A|B] = miles; table[B|A] = miles;` — the two consecutive
assignments of the pair loop. -/
def insertBoth (t : Table) (a b : String) (v : ℚ) : Table :=
  setKey (setKey t (pk a b) v) (pk b a) v

/-- State threaded through the pair loop of the batch script. -/
structure TState where
  routeCache : RouteCache
  table : Table
  requests : Nat
deriving Repr

/-- One iteration of the pair loop of the batch script for index pair
`(i, j)`: look up the two coordinates, obtain the meter count through
`getMeters`, convert to miles rounded to two decimals, and write the value
under both directional keys. -/
def pairStep (env : BatchEnv) (keys : List String)
    (coords : List (String × Coord)) (st : TState) (ij : ℕ × ℕ) : TState :=
  let A := keyAt keys ij.1
  let B := keyAt keys ij.2
  let g := getMeters env st.routeCache (coordAt coords A) (coordAt coords B) (pk A B)
  { routeCache := g.2.1
    table := insertBoth st.table A B (round2 (metersToMiles g.1))
    requests := st.requests + g.2.2 }

/-- Result of one whole run of the batch script: the emitted mileage table,
the two caches as they are flushed at the end, and the total number of
network requests issued. -/
structure RunResult where
  table : Table
  geoCache : GeoCache
  routeCache : RouteCache
  requests : Nat
deriving DecidableEq, Repr

/-- One run of the batch main script, parameterized by the alias mapping
and the caches loaded at startup. -/
def runBatch (env : BatchEnv) (aliases : List (String × String))
    (gc : GeoCache) (rc : RouteCache) : RunResult :=
  let keys := aliases.map Prod.fst
  let g := geocodePhase env aliases gc
  let st := (pairIndices keys.length).foldl (pairStep env keys g.coords)
    ⟨rc, [], 0⟩
  ⟨st.table, g.geoCache, st.routeCache, g.requests + st.requests⟩

/-- All states reached by folding `f` over `l` from `b`, including the
initial and final ones (the reachable states of the loop). -/
def loopStates {α β : Type} (f : β → α → β) (b : β) : List α → List β
  | [] => [b]
  | a :: l => b :: loopStates f (f b a) l

/-- Every table state reached by the pair loop of one batch run, from the
initial empty table to the final table. -/
def batchTables (env : BatchEnv) (aliases : List (String × String))
    (gc : GeoCache) (rc : RouteCache) : List Table :=
  let keys := aliases.map Prod.fst
  let g := geocodePhase env aliases gc
  (loopStates (pairStep env keys g.coords) ⟨rc, [], 0⟩
    (pairIndices keys.length)).map TState.table

/-- The meter count `getMeters` yields at a pair step when started from
route cache `rc` (cached value when truthy, fresh network result
otherwise). -/
def stepMeters (env : BatchEnv) (rc : RouteCache) (keys : List String)
    (coords : List (String × Coord)) (ij : ℕ × ℕ) : ℚ :=
  (getMeters env rc (coordAt coords (keyAt keys ij.1))
    (coordAt coords (keyAt keys ij.2))
    (pk (keyAt keys ij.1) (keyAt keys ij.2))).1

/-- The geo cache has an entry for every alias address (the sense in which
a cache file "covers every address"). -/
def geoCovered (gc : GeoCache) (aliases : List (String × String)) : Bool :=
  aliases.all fun p => (getVal gc p.2).isSome

/-- The route cache has an entry for every pair key of the pair loop (the
sense in which a cache file "covers every pair key"). -/
def routeCovered (rc : RouteCache) (keys : List String) : Bool :=
  (pairIndices keys.length).all fun ij =>
    (getVal rc (pk (keyAt keys ij.1) (keyAt keys ij.2))).isSome

/-- A geocoded location of the interactive tool: `{ address, lon, lat }`
as returned by `geocodeAddress`. -/
structure Geocoded where
  address : String
  lon : ℚ
  lat : ℚ
deriving DecidableEq, Repr

/-- A leg of a Mapbox route as used by the interactive tool (only the
`distance` field, in meters, is read). -/
structure Leg where
  distance : ℚ
deriving DecidableEq, Repr

/-- `data.routes[0]` of a directions response: total distance in meters and
the per-leg breakdown (`route.legs || []` is the empty list when the field
is missing). -/
structure Route where
  distance : ℚ
  legs : List Leg
deriving DecidableEq, Repr

/-- The configuration and external services of the interactive tool: the
Mapbox token pasted into `app.js`, the geocoding service (top-ranked
`[lon, lat]` for an address) and the directions service (the first route
for a coordinate sequence).  Only successful responses are modelled; a
failure is caught and shown as an error status in the source. -/
structure WebEnv where
  token : String
  geoNet : String → ℚ × ℚ
  routeNet : List Geocoded → Route

/-- `geocodeAddress(address)` from the interactive tool (success path):
package the service coordinates with the queried address. -/
def geocodeAddress (env : WebEnv) (address : String) : Geocoded :=
  ⟨address, (env.geoNet address).1, (env.geoNet address).2⟩

/-- One rendered row of the legs table: sequence number, origin address,
destination address, and the displayed miles value (the number whose
two-decimal rendering appears in the cell). -/
structure LegRow where
  idx : ℕ
  fromAddr : String
  toAddr : String
  miles : ℚ
deriving DecidableEq, Repr

/-- The fallback branch of `calculateMileage` (`legs.length === 0`): one
synthetic row per consecutive pair of geocoded coordinates, each showing
the whole route distance converted to miles. -/
def fallbackRows (geocoded : List Geocoded) (totalMeters : ℚ) : List LegRow :=
  (List.range (geocoded.length - 1)).map fun i =>
    { idx := i + 1
      fromAddr := (geocoded.getD i ⟨"", 0, 0⟩).address
      toAddr := (geocoded.getD (i + 1) ⟨"", 0, 0⟩).address
      miles := round2 (metersToMiles totalMeters) }

/-- The normal branch of `calculateMileage`: one row per leg of the route,
`legs.forEach((leg, idx) => ...)`, row `idx` joining geocoded stop `idx`
to stop `idx + 1`. -/
def legsRows (geocoded : List Geocoded) (legs : List Leg) : List LegRow :=
  (List.range legs.length).map fun idx =>
    { idx := idx + 1
      fromAddr := (geocoded.getD idx ⟨"", 0, 0⟩).address
      toAddr := (geocoded.getD (idx + 1) ⟨"", 0, 0⟩).address
      miles := round2 (metersToMiles (legs.getD idx ⟨0⟩).distance) }

/-- Outcome of one click of the Calculate button: either an error status
message, or the rendered rows together with the displayed grand total in
miles. -/
inductive CalcResult where
  | err (msg : String)
  | ok (rows : List LegRow) (totalMiles : ℚ)
deriving DecidableEq, Repr

/-- The rendered rows of a successful outcome. -/
def CalcResult.rowsOf : CalcResult → Option (List LegRow)
  | .ok rows _ => some rows
  | .err _ => none

/-- The address-list parsing of `calculateMileage`:
`locationsInput.value.split("\n")`, then `trim` each line and keep the
non-empty ones. -/
def parseLocations (input : String) : List String :=
  ((jsSplit '\n' input.data).map fun l => String.mk (jsTrim l)).filter
    fun s => s.length > 0

/-- `calculateMileage()` from the interactive tool, as a function of the
entered text and the round-trip checkbox.  Returns the outcome and the
number of network requests issued (one geocoding request per location plus
one directions request on the success path, zero on the two early
returns). -/
def calculateMileage (env : WebEnv) (input : String) (roundTrip : Bool) :
    CalcResult × Nat :=
  let locations := parseLocations input
  if locations.length < 2 then
    (.err "Enter at least two locations.", 0)
  else if env.token = "" ∨ env.token = "YOUR_MAPBOX_ACCESS_TOKEN_HERE" then
    (.err "You need to set your Mapbox token in app.js before this will work.", 0)
  else
    let locations := if roundTrip then locations ++ [locations.getD 0 ""]
      else locations
    let geocoded := locations.map (geocodeAddress env)
    let route := env.routeNet geocoded
    let rows := if route.legs.length = 0 then fallbackRows geocoded route.distance
      else legsRows geocoded route.legs
    (.ok rows (round2 (metersToMiles route.distance)), geocoded.length + 1)

/-! ### Association-list lemmas -/

theorem getVal_setKey_self {α : Type} (l : List (String × α)) (k : String)
    (v : α) : getVal (setKey l k v) k = some v := by
  induction l with
  | nil => simp [setKey, getVal]
  | cons p rest ih =>
    obtain ⟨k', w⟩ := p
    by_cases h : k' = k <;> simp [setKey, getVal, h, ih]

theorem getVal_setKey_ne {α : Type} (l : List (String × α)) {k k' : String}
    (v : α) (h : k' ≠ k) : getVal (setKey l k v) k' = getVal l k' := by
  have hkk : ¬k = k' := fun e => h e.symm
  induction l with
  | nil => simp [setKey, getVal, hkk]
  | cons p rest ih =>
    obtain ⟨k'', w⟩ := p
    by_cases h2 : k'' = k
    · subst h2
      simp [setKey, getVal, hkk]
    · simp only [setKey, if_neg h2]
      by_cases h3 : k'' = k' <;> simp [getVal, h3, ih]

theorem getVal_mem {α : Type} {l : List (String × α)} {k : String} {v : α}
    (h : getVal l k = some v) : (k, v) ∈ l := by
  induction l with
  | nil => simp [getVal] at h
  | cons p rest ih =>
    obtain ⟨k', w⟩ := p
    by_cases h2 : k' = k
    · subst h2
      simp only [getVal, if_pos rfl, Option.some.injEq] at h
      simp [getVal] at h
      simp [h]
    · simp only [getVal, if_neg h2] at h
      exact List.mem_cons_of_mem _ (ih h)

theorem getVal_eq_none {α : Type} {l : List (String × α)} {k : String}
    (h : ∀ p ∈ l, p.1 ≠ k) : getVal l k = none := by
  induction l with
  | nil => rfl
  | cons p rest ih =>
    obtain ⟨k', w⟩ := p
    have hk : k' ≠ k := h (k', w) (by simp)
    simp only [getVal, if_neg hk]
    exact ih fun q hq => h q (List.mem_cons_of_mem _ hq)

theorem setKey_of_getVal_none {α : Type} {l : List (String × α)} {k : String}
    (v : α) (h : getVal l k = none) : setKey l k v = l ++ [(k, v)] := by
  induction l with
  | nil => simp [setKey]
  | cons p rest ih =>
    obtain ⟨k', w⟩ := p
    by_cases h2 : k' = k
    · simp [getVal, h2] at h
    · simp only [getVal, if_neg h2] at h
      simp [setKey, if_neg h2, ih h]

theorem getVal_append {α : Type} (l₁ l₂ : List (String × α)) (k : String) :
    getVal (l₁ ++ l₂) k =
      match getVal l₁ k with
      | some v => some v
      | none => getVal l₂ k := by
  induction l₁ with
  | nil => simp [getVal]
  | cons p rest ih =>
    obtain ⟨k', w⟩ := p
    by_cases h : k' = k <;> simp [getVal, h, ih]

theorem getVal_isSome_setKey {α : Type} (l : List (String × α))
    {k : String} (k' : String) (v : α) (h : (getVal l k).isSome) :
    (getVal (setKey l k' v) k).isSome := by
  by_cases h2 : k = k'
  · subst h2; simp [getVal_setKey_self]
  · rwa [getVal_setKey_ne _ _ h2]

/-! ### Pair-key injectivity -/

theorem sep_append_inj {l₁ l₂ l₃ l₄ : List Char} (h₁ : '|' ∉ l₁)
    (h₃ : '|' ∉ l₃) (h : l₁ ++ '|' :: l₂ = l₃ ++ '|' :: l₄) :
    l₁ = l₃ ∧ l₂ = l₄ := by
  induction l₁ generalizing l₃ with
  | nil =>
    cases l₃ with
    | nil => simpa using h
    | cons c rest =>
      simp only [List.nil_append, List.cons_append, List.cons.injEq] at h
      exact absurd (h.1 ▸ List.mem_cons_self c rest) h₃
  | cons c rest ih =>
    cases l₃ with
    | nil =>
      simp only [List.nil_append, List.cons_append, List.cons.injEq] at h
      exact absurd (h.1.symm ▸ List.mem_cons_self c rest) h₁
    | cons c' rest' =>
      simp only [List.cons_append, List.cons.injEq] at h
      obtain ⟨rfl, h2⟩ := h
      have := ih (fun hm => h₁ (List.mem_cons_of_mem _ hm))
        (fun hm => h₃ (List.mem_cons_of_mem _ hm)) h2
      exact ⟨by rw [this.1], this.2⟩

theorem pk_inj {a b c d : String} (ha : pipeFree a) (hc : pipeFree c)
    (h : pk a b = pk c d) : a = c ∧ b = d := by
  have hdata : a.data ++ '|' :: b.data = c.data ++ '|' :: d.data := by
    have := congrArg String.data h
    simpa [pk, String.data_append] using this
  obtain ⟨h1, h2⟩ := sep_append_inj ha hc hdata
  exact ⟨String.ext h1, String.ext h2⟩

theorem pk_ne_of_ne {a b c d : String} (ha : pipeFree a) (hc : pipeFree c)
    (h : a ≠ c ∨ b ≠ d) : pk a b ≠ pk c d := by
  intro he
  obtain ⟨h1, h2⟩ := pk_inj ha hc he
  rcases h with h | h <;> exact h (by simp [h1, h2])

/-! ### `getMeters` and `geocode` lemmas -/

theorem getMeters_hit {env : BatchEnv} {rc : RouteCache} {cA cB : Coord}
    {k : String} {m : ℚ} (hm : getVal rc k = some m) (hnz : m ≠ 0) :
    getMeters env rc cA cB k = (m, rc, 0) := by
  simp [getMeters, hm, hnz]

theorem getMeters_cache_self (env : BatchEnv) (rc : RouteCache)
    (cA cB : Coord) (k : String) :
    getVal (getMeters env rc cA cB k).2.1 k = some (getMeters env rc cA cB k).1 := by
  unfold getMeters
  cases h : getVal rc k with
  | none => simp [getVal_setKey_self]
  | some m =>
    by_cases hz : m = 0 <;> simp [hz, getVal_setKey_self, h]

theorem getMeters_cache_other (env : BatchEnv) (rc : RouteCache)
    (cA cB : Coord) {k k' : String} (h : k' ≠ k) :
    getVal (getMeters env rc cA cB k).2.1 k' = getVal rc k' := by
  unfold getMeters
  cases hc : getVal rc k with
  | none => simp [getVal_setKey_ne _ _ h]
  | some m =>
    by_cases hz : m = 0 <;> simp [hz, getVal_setKey_ne _ _ h]

theorem geocode_cache_self (env : BatchEnv) (gc : GeoCache) (a : String) :
    getVal (geocode env gc a).2.1 a = some (some (geocode env gc a).1) := by
  unfold geocode
  cases h : getVal gc a with
  | none => simp [getVal_setKey_self]
  | some o =>
    cases o with
    | none => simp [getVal_setKey_self]
    | some c => simp [h]

theorem geocode_preserves {env : BatchEnv} {gc : GeoCache} {a : String}
    {c : Coord} (h : getVal gc a = some (some c)) (a' : String) :
    getVal (geocode env gc a').2.1 a = some (some c) := by
  unfold geocode
  cases hc : getVal gc a' with
  | none =>
    have hne : a ≠ a' := fun e => by rw [e, hc] at h; exact Option.noConfusion h
    simpa [getVal_setKey_ne _ _ hne] using h
  | some o =>
    cases o with
    | none =>
      have hne : a ≠ a' := fun e => by
        rw [e, hc] at h
        exact Option.noConfusion (Option.some.inj h)
      simpa [getVal_setKey_ne _ _ hne] using h
    | some c' => simpa using h

/-! ### Geocoding-phase lemmas -/

/-- Every alias address has a truthy entry in the geo cache. -/
def warmGeo (gc : GeoCache) (aliases : List (String × String)) : Prop :=
  ∀ p ∈ aliases, ∃ c : Coord, getVal gc p.2 = some (some c)

theorem geocodePhase_preserves {env : BatchEnv} {a : String} {c : Coord} :
    ∀ (aliases : List (String × String)) (gc : GeoCache),
      getVal gc a = some (some c) →
      getVal (geocodePhase env aliases gc).geoCache a = some (some c)
  | [], gc, h => h
  | (k, addr) :: rest, gc, h =>
    geocodePhase_preserves rest _ (geocode_preserves h addr)

/-- After a batch run, the geo cache holds a truthy coordinate for every
alias address (the `coords[key] = await geocode(addr)` loop stores one for
each address, and later iterations never erase it). -/
theorem geocodePhase_warm_after (env : BatchEnv) :
    ∀ (aliases : List (String × String)) (gc : GeoCache),
      warmGeo (geocodePhase env aliases gc).geoCache aliases
  | [], _, p, hp => absurd hp (List.not_mem_nil p)
  | (k, addr) :: rest, gc, p, hp => by
    rcases List.mem_cons.mp hp with he | ht
    · subst he
      exact ⟨(geocode env gc addr).1,
        geocodePhase_preserves rest _ (geocode_cache_self env gc addr)⟩
    · exact geocodePhase_warm_after env rest _ p ht

/-- With a fully warm geo cache the geocoding phase issues no request and
leaves the cache unchanged. -/
theorem geocodePhase_warm_run (env : BatchEnv) :
    ∀ (aliases : List (String × String)) (gc : GeoCache),
      warmGeo gc aliases →
      (geocodePhase env aliases gc).geoCache = gc ∧
        (geocodePhase env aliases gc).requests = 0
  | [], gc, _ => ⟨rfl, rfl⟩
  | (k, addr) :: rest, gc, h => by
    obtain ⟨c, hc⟩ := h (k, addr) (List.mem_cons_self _ _)
    have hg : geocode env gc addr = (c, gc, 0) := by
      simp [geocode, hc]
    have hrest := geocodePhase_warm_run env rest gc
      (fun p hp => h p (List.mem_cons_of_mem _ hp))
    simp only [geocodePhase, hg]
    exact ⟨hrest.1, by simp [hrest.2]⟩

/-! ### Pair-loop lemmas -/

/-- The directional pair key the loop builds for index pair `ij`. -/
def pkAt (keys : List String) (ij : ℕ × ℕ) : String :=
  pk (keyAt keys ij.1) (keyAt keys ij.2)

theorem foldl_congr_mem {α β : Type} {f g : β → α → β} :
    ∀ {l : List α} (b : β), (∀ a ∈ l, ∀ c : β, f c a = g c a) →
      l.foldl f b = l.foldl g b
  | [], _, _ => rfl
  | a :: l, b, h => by
    simp only [List.foldl_cons]
    rw [h a (List.mem_cons_self _ _) b]
    exact foldl_congr_mem _ fun x hx => h x (List.mem_cons_of_mem _ hx)

theorem getMeters_fst_congr (env : BatchEnv) {rc rc' : RouteCache}
    (cA cB : Coord) (k : String) (h : getVal rc k = getVal rc' k) :
    (getMeters env rc cA cB k).1 = (getMeters env rc' cA cB k).1 := by
  unfold getMeters
  rw [h]
  cases getVal rc' k with
  | none => rfl
  | some m => by_cases hz : m = 0 <;> simp [hz]

theorem stepMeters_congr (env : BatchEnv) {rc rc' : RouteCache}
    (keys : List String) (coords : List (String × Coord)) (ij : ℕ × ℕ)
    (h : getVal rc (pkAt keys ij) = getVal rc' (pkAt keys ij)) :
    stepMeters env rc keys coords ij = stepMeters env rc' keys coords ij :=
  getMeters_fst_congr env _ _ _ h

/-- The central description of the pair loop of the batch script, for any
list of index pairs whose directional keys are distinct: the table grows by
one `insertBoth` per pair using the meter count determined by the route
cache at entry, the route cache ends up holding exactly that meter count
under the pair key, and all other cache keys are untouched. -/
theorem pairLoop_spec (env : BatchEnv) (keys : List String)
    (coords : List (String × Coord)) :
    ∀ (ps : List (ℕ × ℕ)) (st : TState),
      (ps.map (pkAt keys)).Nodup →
      ((ps.foldl (pairStep env keys coords) st).table =
          ps.foldl (fun t ij => insertBoth t (keyAt keys ij.1) (keyAt keys ij.2)
            (round2 (metersToMiles (stepMeters env st.routeCache keys coords ij))))
            st.table
      ∧ (∀ ij ∈ ps,
          getVal (ps.foldl (pairStep env keys coords) st).routeCache (pkAt keys ij)
            = some (stepMeters env st.routeCache keys coords ij))
      ∧ (∀ k : String, (∀ ij ∈ ps, k ≠ pkAt keys ij) →
          getVal (ps.foldl (pairStep env keys coords) st).routeCache k
            = getVal st.routeCache k))
  | [], st, _ => by
    refine ⟨rfl, ?_, ?_⟩
    · intro ij h; exact absurd h (List.not_mem_nil ij)
    · intro k _; rfl
  | ij :: rest, st, hnd => by
    have hne : pkAt keys ij ∉ rest.map (pkAt keys) :=
      (List.nodup_cons.mp (by simpa using hnd)).1
    have hnd' : (rest.map (pkAt keys)).Nodup :=
      (List.nodup_cons.mp (by simpa using hnd)).2
    set st' := pairStep env keys coords st ij with hst'
    have hpkne : ∀ ij' ∈ rest, pkAt keys ij' ≠ pkAt keys ij := by
      intro ij' h' he
      exact hne (he ▸ List.mem_map_of_mem (pkAt keys) h')
    have f2 : getVal st'.routeCache (pkAt keys ij)
        = some (stepMeters env st.routeCache keys coords ij) :=
      getMeters_cache_self env st.routeCache _ _ _
    have f3 : ∀ k : String, k ≠ pkAt keys ij →
        getVal st'.routeCache k = getVal st.routeCache k := fun k hk =>
      getMeters_cache_other env st.routeCache _ _ hk
    have f5 : ∀ ij' ∈ rest,
        getVal st'.routeCache (pkAt keys ij') = getVal st.routeCache (pkAt keys ij') :=
      fun ij' h' => f3 _ (hpkne ij' h')
    have f6 : ∀ ij' ∈ rest,
        stepMeters env st'.routeCache keys coords ij'
          = stepMeters env st.routeCache keys coords ij' :=
      fun ij' h' => stepMeters_congr env keys coords ij' (f5 ij' h')
    obtain ⟨ih1, ih2, ih3⟩ := pairLoop_spec env keys coords rest st' hnd'
    refine ⟨?_, ?_, ?_⟩
    · show (rest.foldl (pairStep env keys coords) st').table = _
      rw [ih1]
      have htab : st'.table = insertBoth st.table (keyAt keys ij.1) (keyAt keys ij.2)
          (round2 (metersToMiles (stepMeters env st.routeCache keys coords ij))) := rfl
      rw [List.foldl_cons, ← htab]
      exact foldl_congr_mem st'.table fun ij' h' t => by rw [f6 ij' h']
    · intro ij'' h''
      rcases List.mem_cons.mp h'' with he | ht
      · subst he
        have := ih3 (pkAt keys ij'') fun ij' h' => (hpkne ij' h').symm
        rw [List.foldl_cons, this, f2]
      · rw [List.foldl_cons, ih2 ij'' ht, f6 ij'' ht]
    · intro k hk
      rw [List.foldl_cons, ih3 k fun ij' h' => hk ij' (List.mem_cons_of_mem _ h'),
        f3 k (hk ij (List.mem_cons_self _ _))]

/-- With a warm route cache (an entry with a truthy, i.e. nonzero, meter
count for every pair key) the pair loop issues no request, leaves the route
cache unchanged, and rebuilds the table from the cached values alone. -/
theorem pairLoop_warm (env : BatchEnv) (keys : List String)
    (coords : List (String × Coord)) :
    ∀ (ps : List (ℕ × ℕ)) (st : TState),
      (∀ ij ∈ ps, ∃ m : ℚ, m ≠ 0 ∧ getVal st.routeCache (pkAt keys ij) = some m) →
      ps.foldl (pairStep env keys coords) st =
        { routeCache := st.routeCache
          table := ps.foldl (fun t ij =>
            insertBoth t (keyAt keys ij.1) (keyAt keys ij.2)
              (round2 (metersToMiles ((getVal st.routeCache (pkAt keys ij)).getD 0))))
            st.table
          requests := st.requests }
  | [], st, _ => rfl
  | ij :: rest, st, h => by
    obtain ⟨m, hm0, hmv⟩ := h ij (List.mem_cons_self _ _)
    have hstep : pairStep env keys coords st ij =
        { routeCache := st.routeCache
          table := insertBoth st.table (keyAt keys ij.1) (keyAt keys ij.2)
            (round2 (metersToMiles ((getVal st.routeCache (pkAt keys ij)).getD 0)))
          requests := st.requests } := by
      have hmv' : getVal st.routeCache
          (pk (keyAt keys ij.1) (keyAt keys ij.2)) = some m := hmv
      simp [pairStep, getMeters_hit hmv' hm0, hmv, hmv']
    have ih := pairLoop_warm env keys coords rest
      { routeCache := st.routeCache
        table := insertBoth st.table (keyAt keys ij.1) (keyAt keys ij.2)
          (round2 (metersToMiles ((getVal st.routeCache (pkAt keys ij)).getD 0)))
        requests := st.requests }
      (fun ij' h' => h ij' (List.mem_cons_of_mem _ h'))
    simp only [List.foldl_cons, hstep, ih]

/-- Folding `insertBoth` over pairs whose directional keys are distinct and
absent from the initial table appends exactly two keyed entries per pair. -/
theorem foldl_insertBoth_fresh (A B : ℕ × ℕ → String) (v : ℕ × ℕ → ℚ) :
    ∀ (ps : List (ℕ × ℕ)) (t : Table),
      (ps.flatMap fun ij => [pk (A ij) (B ij), pk (B ij) (A ij)]).Nodup →
      (∀ ij ∈ ps, getVal t (pk (A ij) (B ij)) = none ∧
        getVal t (pk (B ij) (A ij)) = none) →
      ps.foldl (fun t ij => insertBoth t (A ij) (B ij) (v ij)) t =
        t ++ ps.flatMap fun ij => [(pk (A ij) (B ij), v ij), (pk (B ij) (A ij), v ij)]
  | [], t, _, _ => by simp
  | ij :: rest, t, hnd, hfresh => by
    simp only [List.flatMap_cons] at hnd
    rw [List.nodup_append] at hnd
    obtain ⟨hnd1, hnd2, hdisj⟩ := hnd
    have hABBA : pk (A ij) (B ij) ≠ pk (B ij) (A ij) := by
      intro he
      simp [he] at hnd1
    obtain ⟨hf1, hf2⟩ := hfresh ij (List.mem_cons_self _ _)
    have hset1 : setKey t (pk (A ij) (B ij)) (v ij) = t ++ [(pk (A ij) (B ij), v ij)] :=
      setKey_of_getVal_none _ hf1
    have hg2 : getVal (t ++ [(pk (A ij) (B ij), v ij)]) (pk (B ij) (A ij)) = none := by
      rw [getVal_append, hf2]
      simp [getVal, fun h => hABBA h]
    have hstep : insertBoth t (A ij) (B ij) (v ij) =
        t ++ [(pk (A ij) (B ij), v ij), (pk (B ij) (A ij), v ij)] := by
      unfold insertBoth
      rw [hset1, setKey_of_getVal_none _ hg2, List.append_assoc]
      rfl
    have hmemflat : ∀ ij' ∈ rest, pk (A ij') (B ij') ∈
        (rest.flatMap fun p => [pk (A p) (B p), pk (B p) (A p)]) ∧
        pk (B ij') (A ij') ∈
        (rest.flatMap fun p => [pk (A p) (B p), pk (B p) (A p)]) := by
      intro ij' h'
      constructor <;> exact List.mem_flatMap_of_mem h' (by simp)
    have hfresh' : ∀ ij' ∈ rest,
        getVal (t ++ [(pk (A ij) (B ij), v ij), (pk (B ij) (A ij), v ij)])
          (pk (A ij') (B ij')) = none ∧
        getVal (t ++ [(pk (A ij) (B ij), v ij), (pk (B ij) (A ij), v ij)])
          (pk (B ij') (A ij')) = none := by
      intro ij' h'
      obtain ⟨hm1, hm2⟩ := hmemflat ij' h'
      obtain ⟨ho1, ho2⟩ := hfresh ij' (List.mem_cons_of_mem _ h')
      have hne1 : pk (A ij) (B ij) ≠ pk (A ij') (B ij') := fun he =>
        hdisj (by simp) (he ▸ hm1)
      have hne2 : pk (B ij) (A ij) ≠ pk (A ij') (B ij') := fun he =>
        hdisj (by simp) (he ▸ hm1)
      have hne3 : pk (A ij) (B ij) ≠ pk (B ij') (A ij') := fun he =>
        hdisj (by simp) (he ▸ hm2)
      have hne4 : pk (B ij) (A ij) ≠ pk (B ij') (A ij') := fun he =>
        hdisj (by simp) (he ▸ hm2)
      constructor
      · rw [getVal_append, ho1]
        simp [getVal, fun h => hne1 h, fun h => hne2 h]
      · rw [getVal_append, ho2]
        simp [getVal, fun h => hne3 h, fun h => hne4 h]
    rw [List.foldl_cons, hstep,
      foldl_insertBoth_fresh A B v rest _ hnd2 hfresh']
    simp [List.flatMap_cons]

/-! ### Table symmetry (both directional keys together) -/

/-- A table is direction-symmetric: for all pipe-free identifiers the two
directional keys are either both absent or both present with equal
values. -/
def SymTable (t : Table) : Prop :=
  ∀ a b : String, pipeFree a → pipeFree b → getVal t (pk a b) = getVal t (pk b a)

theorem symTable_nil : SymTable [] := fun _ _ _ _ => rfl

theorem symTable_insertBoth {t : Table} (h : SymTable t) {A B : String}
    (hA : pipeFree A) (hB : pipeFree B) (v : ℚ) :
    SymTable (insertBoth t A B v) := by
  intro a b ha hb
  unfold insertBoth
  by_cases h1 : pk a b = pk B A
  · obtain ⟨rfl, rfl⟩ := pk_inj ha hB h1
    rw [getVal_setKey_self]
    by_cases h2 : pk b a = pk a b
    · rw [h2, getVal_setKey_self]
    · rw [getVal_setKey_ne _ _ h2, getVal_setKey_self]
  · by_cases h2 : pk a b = pk A B
    · obtain ⟨rfl, rfl⟩ := pk_inj ha hA h2
      rw [getVal_setKey_ne _ _ h1, getVal_setKey_self, getVal_setKey_self]
    · have h3 : pk b a ≠ pk B A := by
        intro he
        obtain ⟨rfl, rfl⟩ := pk_inj hb hB he
        exact h2 rfl
      have h4 : pk b a ≠ pk A B := by
        intro he
        obtain ⟨rfl, rfl⟩ := pk_inj hb hA he
        exact h1 rfl
      rw [getVal_setKey_ne _ _ h1, getVal_setKey_ne _ _ h2,
        getVal_setKey_ne _ _ h3, getVal_setKey_ne _ _ h4]
      exact h a b ha hb

theorem keyAt_pipeFree {keys : List String}
    (hp : ∀ k ∈ keys, pipeFree k) (i : ℕ) : pipeFree (keyAt keys i) := by
  unfold keyAt
  rw [List.getD_eq_getElem?_getD]
  cases h : keys[i]? with
  | none => simp [pipeFree]
  | some s => exact hp s (List.getElem?_mem h)

theorem symTable_pairStep {env : BatchEnv} {keys : List String}
    {coords : List (String × Coord)} {st : TState}
    (hp : ∀ k ∈ keys, pipeFree k) (h : SymTable st.table) (ij : ℕ × ℕ) :
    SymTable (pairStep env keys coords st ij).table :=
  symTable_insertBoth h (keyAt_pipeFree hp ij.1) (keyAt_pipeFree hp ij.2) _

/-- Every table state reached by the pair loop is direction-symmetric. -/
theorem symTable_loopStates {env : BatchEnv} {keys : List String}
    {coords : List (String × Coord)} (hp : ∀ k ∈ keys, pipeFree k) :
    ∀ (ps : List (ℕ × ℕ)) (st : TState), SymTable st.table →
      ∀ t ∈ (loopStates (pairStep env keys coords) st ps).map TState.table,
        SymTable t
  | [], st, h, t, ht => by
    simp only [loopStates, List.map_cons, List.map_nil, List.mem_singleton] at ht
    exact ht ▸ h
  | ij :: rest, st, h, t, ht => by
    simp only [loopStates, List.map_cons, List.mem_cons] at ht
    rcases ht with he | ht
    · exact he ▸ h
    · exact symTable_loopStates hp rest _ (symTable_pairStep hp h ij) t
        (by simpa using ht)

theorem symTable_foldl {env : BatchEnv} {keys : List String}
    {coords : List (String × Coord)} (hp : ∀ k ∈ keys, pipeFree k) :
    ∀ (ps : List (ℕ × ℕ)) (st : TState), SymTable st.table →
      SymTable (ps.foldl (pairStep env keys coords) st).table
  | [], _, h => h
  | ij :: rest, st, h =>
    symTable_foldl hp rest _ (symTable_pairStep hp h ij)

theorem isSome_insertBoth {t : Table} {k : String} (A B : String) (v : ℚ)
    (h : (getVal t k).isSome) : (getVal (insertBoth t A B v) k).isSome :=
  getVal_isSome_setKey _ _ _ (getVal_isSome_setKey _ _ _ h)

theorem insertBoth_self_isSome (t : Table) (A B : String) (v : ℚ) :
    (getVal (insertBoth t A B v) (pk A B)).isSome ∧
      (getVal (insertBoth t A B v) (pk B A)).isSome := by
  constructor
  · exact getVal_isSome_setKey _ _ _ (by rw [getVal_setKey_self]; rfl)
  · unfold insertBoth
    rw [getVal_setKey_self]
    rfl

theorem foldl_table_isSome {env : BatchEnv} {keys : List String}
    {coords : List (String × Coord)} {k : String} :
    ∀ (ps : List (ℕ × ℕ)) (st : TState),
      (getVal st.table k).isSome →
      (getVal (ps.foldl (pairStep env keys coords) st).table k).isSome
  | [], _, h => h
  | ij :: rest, st, h =>
    foldl_table_isSome rest _ (isSome_insertBoth _ _ _ h)

/-- Every processed pair ends up with both directional keys present. -/
theorem pairLoop_present {env : BatchEnv} {keys : List String}
    {coords : List (String × Coord)} :
    ∀ (ps : List (ℕ × ℕ)) (st : TState), ∀ ij ∈ ps,
      (getVal (ps.foldl (pairStep env keys coords) st).table (pkAt keys ij)).isSome ∧
      (getVal (ps.foldl (pairStep env keys coords) st).table
        (pk (keyAt keys ij.2) (keyAt keys ij.1))).isSome
  | [], _, ij, h => absurd h (List.not_mem_nil ij)
  | ij' :: rest, st, ij, h => by
    rcases List.mem_cons.mp h with he | ht
    · subst he
      obtain ⟨h1, h2⟩ := insertBoth_self_isSome st.table
        (keyAt keys ij.1) (keyAt keys ij.2)
        (round2 (metersToMiles (stepMeters env st.routeCache keys coords ij)))
      exact ⟨foldl_table_isSome rest _ h1, foldl_table_isSome rest _ h2⟩
    · exact pairLoop_present rest _ ij ht

/-! ### Pair-enumeration lemmas -/

/-- Lexicographic order on index pairs. -/
def lexLt (p q : ℕ × ℕ) : Prop := p.1 < q.1 ∨ (p.1 = q.1 ∧ p.2 < q.2)

theorem mem_pairIndices {n i j : ℕ} :
    (i, j) ∈ pairIndices n ↔ i < j ∧ j < n := by
  unfold pairIndices
  simp only [List.mem_flatMap, List.mem_map, List.mem_range,
    List.mem_range'_1, Prod.mk.injEq]
  constructor
  · rintro ⟨a, ha, b, ⟨hb1, hb2⟩, rfl, rfl⟩
    omega
  · rintro ⟨hij, hjn⟩
    exact ⟨i, by omega, j, ⟨by omega, by omega⟩, rfl, rfl⟩

theorem mem_pairIndices' {n : ℕ} {ij : ℕ × ℕ} (h : ij ∈ pairIndices n) :
    ij.1 < ij.2 ∧ ij.2 < n := by
  obtain ⟨i, j⟩ := ij
  exact mem_pairIndices.mp h

theorem pairwise_flatMap {α β : Type} {R : β → β → Prop} {f : α → List β} :
    ∀ {l : List α}, (∀ a ∈ l, (f a).Pairwise R) →
      l.Pairwise (fun a b => ∀ x ∈ f a, ∀ y ∈ f b, R x y) →
      (l.flatMap f).Pairwise R
  | [], _, _ => List.Pairwise.nil
  | a :: l, h1, h2 => by
    rw [List.flatMap_cons, List.pairwise_append]
    obtain ⟨hcross, h2'⟩ := List.pairwise_cons.mp h2
    refine ⟨h1 a (List.mem_cons_self _ _),
      pairwise_flatMap (fun x hx => h1 x (List.mem_cons_of_mem _ hx)) h2', ?_⟩
    intro x hx y hy
    obtain ⟨b, hb, hyb⟩ := List.mem_flatMap.mp hy
    exact hcross b hb x hx y hyb

/-- The pair loop enumerates its index pairs in strictly increasing
lexicographic order. -/
theorem pairwise_lexLt_pairIndices (n : ℕ) :
    (pairIndices n).Pairwise lexLt := by
  unfold pairIndices
  refine pairwise_flatMap ?_ ?_
  · intro a _
    exact (List.pairwise_lt_range' _ _).map _
      fun x y hxy => Or.inr ⟨rfl, hxy⟩
  · refine (List.pairwise_lt_range n).imp ?_
    intro a b hab x hx y hy
    obtain ⟨x', _, rfl⟩ := List.mem_map.mp hx
    obtain ⟨y', _, rfl⟩ := List.mem_map.mp hy
    exact Or.inl hab

theorem lexLt_ne {p q : ℕ × ℕ} (h : lexLt p q) : p ≠ q := by
  rintro rfl
  rcases h with h | ⟨_, h⟩ <;> omega

theorem nodup_pairIndices (n : ℕ) : (pairIndices n).Nodup :=
  (pairwise_lexLt_pairIndices n).imp lexLt_ne

theorem keyAt_inj {keys : List String} (hk : keys.Nodup) {i j : ℕ}
    (hi : i < keys.length) (hj : j < keys.length)
    (h : keyAt keys i = keyAt keys j) : i = j := by
  unfold keyAt at h
  rw [List.getD_eq_getElem?_getD, List.getD_eq_getElem?_getD,
    List.getElem?_eq_getElem hi, List.getElem?_eq_getElem hj] at h
  simp only [Option.getD_some] at h
  exact (hk.getElem_inj_iff).mp h

/-- With distinct pipe-free identifiers, distinct index pairs give distinct
identifier pairs. -/
theorem nodup_map_keyPairs {keys : List String} (hk : keys.Nodup) :
    ((pairIndices keys.length).map
      (fun ij => (keyAt keys ij.1, keyAt keys ij.2))).Nodup := by
  refine List.Nodup.map_on ?_ (nodup_pairIndices keys.length)
  intro x hx y hy hxy
  obtain ⟨hx12, hx2⟩ := mem_pairIndices' hx
  obtain ⟨hy12, hy2⟩ := mem_pairIndices' hy
  simp only [Prod.mk.injEq] at hxy
  have h1 := keyAt_inj hk (by omega) (by omega) hxy.1
  have h2 := keyAt_inj hk (by omega) (by omega) hxy.2
  exact Prod.ext h1 h2

/-- With distinct pipe-free identifiers, the forward pair keys of the pair
loop are distinct. -/
theorem nodup_map_pkAt {keys : List String} (hk : keys.Nodup)
    (hp : ∀ k ∈ keys, pipeFree k) :
    ((pairIndices keys.length).map (pkAt keys)).Nodup := by
  refine List.Nodup.map_on ?_ (nodup_pairIndices keys.length)
  intro x hx y hy hxy
  obtain ⟨hx12, hx2⟩ := mem_pairIndices' hx
  obtain ⟨hy12, hy2⟩ := mem_pairIndices' hy
  obtain ⟨h1, h2⟩ := pk_inj (keyAt_pipeFree hp x.1) (keyAt_pipeFree hp y.1) hxy
  exact Prod.ext (keyAt_inj hk (by omega) (by omega) h1)
    (keyAt_inj hk (by omega) (by omega) h2)

/-- With distinct pipe-free identifiers, all `2·C(n,2)` directional pair
keys of the pair loop are distinct. -/
theorem nodup_dirKeys {keys : List String} (hk : keys.Nodup)
    (hp : ∀ k ∈ keys, pipeFree k) :
    ((pairIndices keys.length).flatMap fun ij =>
      [pk (keyAt keys ij.1) (keyAt keys ij.2),
       pk (keyAt keys ij.2) (keyAt keys ij.1)]).Nodup := by
  refine pairwise_flatMap ?_ ?_
  · intro ij hij
    obtain ⟨h12, h2⟩ := mem_pairIndices' hij
    have hne : pk (keyAt keys ij.1) (keyAt keys ij.2) ≠
        pk (keyAt keys ij.2) (keyAt keys ij.1) := by
      intro he
      obtain ⟨he1, _⟩ := pk_inj (keyAt_pipeFree hp ij.1) (keyAt_pipeFree hp ij.2) he
      have := keyAt_inj hk (by omega) (by omega) he1
      omega
    simp [hne]
  · refine (List.Pairwise.and_mem.mp (pairwise_lexLt_pairIndices keys.length)).imp ?_
    rintro p q ⟨hp', hq', hlex⟩ x hx y hy
    obtain ⟨hp12, hp2⟩ := mem_pairIndices' hp'
    obtain ⟨hq12, hq2⟩ := mem_pairIndices' hq'
    have hpq : p ≠ q := lexLt_ne hlex
    rcases List.mem_pair.mp hx with rfl | rfl <;>
      rcases List.mem_pair.mp hy with rfl | rfl <;>
      intro he
    · obtain ⟨h1, h2⟩ := pk_inj (keyAt_pipeFree hp p.1) (keyAt_pipeFree hp q.1) he
      exact hpq (Prod.ext (keyAt_inj hk (by omega) (by omega) h1)
        (keyAt_inj hk (by omega) (by omega) h2))
    · obtain ⟨h1, h2⟩ := pk_inj (keyAt_pipeFree hp p.1) (keyAt_pipeFree hp q.2) he
      have e1 := keyAt_inj hk (by omega) (by omega) h1
      have e2 := keyAt_inj hk (by omega) (by omega) h2
      omega
    · obtain ⟨h1, h2⟩ := pk_inj (keyAt_pipeFree hp p.2) (keyAt_pipeFree hp q.1) he
      have e1 := keyAt_inj hk (by omega) (by omega) h1
      have e2 := keyAt_inj hk (by omega) (by omega) h2
      omega
    · obtain ⟨h1, h2⟩ := pk_inj (keyAt_pipeFree hp p.2) (keyAt_pipeFree hp q.2) he
      exact hpq (Prod.ext (keyAt_inj hk (by omega) (by omega) h2)
        (keyAt_inj hk (by omega) (by omega) h1))

/-! ### Counting lemmas -/

theorem list_sum_range (f : ℕ → ℕ) :
    ∀ n : ℕ, ((List.range n).map f).sum = ∑ i ∈ Finset.range n, f i
  | 0 => by simp
  | n + 1 => by
    rw [List.range_succ, List.map_append, List.sum_append,
      Finset.sum_range_succ, list_sum_range f n]
    simp

theorem two_mul_length_pairIndices (n : ℕ) :
    2 * (pairIndices n).length = n * (n - 1) := by
  unfold pairIndices
  rw [List.length_flatMap]
  have hmap : List.map (List.length ∘ fun i =>
      (List.range' (i + 1) (n - (i + 1))).map fun j => (i, j)) (List.range n)
      = (List.range n).map fun i => n - 1 - i := by
    refine List.map_congr_left ?_
    intro i _
    simp only [Function.comp_apply, List.length_map, List.length_range']
    omega
  rw [hmap, list_sum_range, Finset.sum_range_reflect (fun j => j) n]
  have := Finset.sum_range_id_mul_two n
  omega

theorem length_flatMap_pairs (A B : ℕ × ℕ → String) (v : ℕ × ℕ → ℚ) :
    ∀ ps : List (ℕ × ℕ),
      (ps.flatMap fun ij =>
        [(pk (A ij) (B ij), v ij), (pk (B ij) (A ij), v ij)]).length = 2 * ps.length
  | [] => rfl
  | ij :: rest => by
    simp only [List.flatMap_cons, List.length_append, List.length_cons,
      List.length_nil, length_flatMap_pairs A B v rest]
    omega

/-! ### Whole-run description of the batch script -/

/-- The `coords` object built by the geocoding phase of a batch run. -/
def batchCoords (env : BatchEnv) (aliases : List (String × String))
    (gc : GeoCache) : List (String × Coord) :=
  (geocodePhase env aliases gc).coords

/-- The two keyed entries the pair loop appends to the table for index pair
`ij`, given the route cache `rc` at the start of the loop. -/
def pairEntries (env : BatchEnv) (aliases : List (String × String))
    (gc : GeoCache) (rc : RouteCache) (ij : ℕ × ℕ) : List (String × ℚ) :=
  [(pk (keyAt (aliases.map Prod.fst) ij.1) (keyAt (aliases.map Prod.fst) ij.2),
    round2 (metersToMiles (stepMeters env rc (aliases.map Prod.fst)
      (batchCoords env aliases gc) ij))),
   (pk (keyAt (aliases.map Prod.fst) ij.2) (keyAt (aliases.map Prod.fst) ij.1),
    round2 (metersToMiles (stepMeters env rc (aliases.map Prod.fst)
      (batchCoords env aliases gc) ij)))]

/-- Closed form of the emitted table of a batch run with distinct pipe-free
location identifiers: exactly two keyed entries per index pair, in loop
order. -/
theorem runBatch_table (env : BatchEnv) (aliases : List (String × String))
    (gc : GeoCache) (rc : RouteCache)
    (hk : (aliases.map Prod.fst).Nodup)
    (hp : ∀ k ∈ aliases.map Prod.fst, pipeFree k) :
    (runBatch env aliases gc rc).table =
      (pairIndices (aliases.map Prod.fst).length).flatMap
        (pairEntries env aliases gc rc) := by
  have hspec := (pairLoop_spec env (aliases.map Prod.fst)
    (batchCoords env aliases gc) (pairIndices (aliases.map Prod.fst).length)
    ⟨rc, [], 0⟩ (nodup_map_pkAt hk hp)).1
  have hfold := foldl_insertBoth_fresh
    (fun ij => keyAt (aliases.map Prod.fst) ij.1)
    (fun ij => keyAt (aliases.map Prod.fst) ij.2)
    (fun ij => round2 (metersToMiles (stepMeters env rc (aliases.map Prod.fst)
      (batchCoords env aliases gc) ij)))
    (pairIndices (aliases.map Prod.fst).length) []
    (nodup_dirKeys hk hp) (fun ij _ => ⟨rfl, rfl⟩)
  exact hspec.trans hfold

/-- After a batch run the route cache holds, under each pair key, exactly
the meter count used for that pair during the run. -/
theorem runBatch_routeCache (env : BatchEnv) (aliases : List (String × String))
    (gc : GeoCache) (rc : RouteCache)
    (hk : (aliases.map Prod.fst).Nodup)
    (hp : ∀ k ∈ aliases.map Prod.fst, pipeFree k) :
    ∀ ij ∈ pairIndices (aliases.map Prod.fst).length,
      getVal (runBatch env aliases gc rc).routeCache
        (pkAt (aliases.map Prod.fst) ij)
      = some (stepMeters env rc (aliases.map Prod.fst)
          (batchCoords env aliases gc) ij) := by
  intro ij hij
  exact (pairLoop_spec env (aliases.map Prod.fst)
    (batchCoords env aliases gc) (pairIndices (aliases.map Prod.fst).length)
    ⟨rc, [], 0⟩ (nodup_map_pkAt hk hp)).2.1 ij hij

theorem flatMap_congr_mem {α β : Type} {f g : α → List β} :
    ∀ {l : List α}, (∀ a ∈ l, f a = g a) → l.flatMap f = l.flatMap g
  | [], _ => rfl
  | a :: l, h => by
    rw [List.flatMap_cons, List.flatMap_cons, h a (List.mem_cons_self _ _),
      flatMap_congr_mem fun x hx => h x (List.mem_cons_of_mem _ hx)]

/-- Re-running the batch script on the caches left by a prior run issues no
request and reproduces the prior table exactly, provided every cached meter
count is truthy (nonzero). -/
theorem runBatch_warm_rerun (env env' : BatchEnv)
    (aliases : List (String × String)) (gc₀ : GeoCache) (rc₀ : RouteCache)
    (hk : (aliases.map Prod.fst).Nodup)
    (hp : ∀ k ∈ aliases.map Prod.fst, pipeFree k)
    (h : ∀ p ∈ (runBatch env aliases gc₀ rc₀).routeCache, p.2 ≠ 0) :
    runBatch env' aliases (runBatch env aliases gc₀ rc₀).geoCache
        (runBatch env aliases gc₀ rc₀).routeCache =
      { table := (runBatch env aliases gc₀ rc₀).table
        geoCache := (runBatch env aliases gc₀ rc₀).geoCache
        routeCache := (runBatch env aliases gc₀ rc₀).routeCache
        requests := 0 } := by
  set res := runBatch env aliases gc₀ rc₀ with hres
  have hwarmgeo : warmGeo res.geoCache aliases :=
    geocodePhase_warm_after env aliases gc₀
  have hgp := geocodePhase_warm_run env' aliases res.geoCache hwarmgeo
  have hwarmroute : ∀ ij ∈ pairIndices (aliases.map Prod.fst).length,
      ∃ m : ℚ, m ≠ 0 ∧ getVal res.routeCache
        (pkAt (aliases.map Prod.fst) ij) = some m := by
    intro ij hij
    have hv := runBatch_routeCache env aliases gc₀ rc₀ hk hp ij hij
    exact ⟨_, h _ (getVal_mem hv), hv⟩
  have hpl : List.foldl (pairStep env' (aliases.map Prod.fst)
        (geocodePhase env' aliases res.geoCache).coords)
        ⟨res.routeCache, [], 0⟩ (pairIndices (aliases.map Prod.fst).length) =
      (⟨res.routeCache,
        (pairIndices (aliases.map Prod.fst).length).foldl (fun t ij =>
          insertBoth t (keyAt (aliases.map Prod.fst) ij.1)
            (keyAt (aliases.map Prod.fst) ij.2)
            (round2 (metersToMiles
              ((getVal res.routeCache
                (pkAt (aliases.map Prod.fst) ij)).getD 0)))) [],
        0⟩ : TState) :=
    pairLoop_warm env' (aliases.map Prod.fst)
      ((geocodePhase env' aliases res.geoCache).coords)
      (pairIndices (aliases.map Prod.fst).length)
      ⟨res.routeCache, [], 0⟩ hwarmroute
  have h2 : (pairIndices (aliases.map Prod.fst).length).foldl (fun t ij =>
        insertBoth t (keyAt (aliases.map Prod.fst) ij.1)
          (keyAt (aliases.map Prod.fst) ij.2)
          (round2 (metersToMiles
            ((getVal res.routeCache (pkAt (aliases.map Prod.fst) ij)).getD 0)))) [] =
      [] ++ (pairIndices (aliases.map Prod.fst).length).flatMap (fun ij =>
        [(pk (keyAt (aliases.map Prod.fst) ij.1) (keyAt (aliases.map Prod.fst) ij.2),
          round2 (metersToMiles
            ((getVal res.routeCache (pkAt (aliases.map Prod.fst) ij)).getD 0))),
         (pk (keyAt (aliases.map Prod.fst) ij.2) (keyAt (aliases.map Prod.fst) ij.1),
          round2 (metersToMiles
            ((getVal res.routeCache (pkAt (aliases.map Prod.fst) ij)).getD 0)))]) :=
    foldl_insertBoth_fresh
      (fun ij => keyAt (aliases.map Prod.fst) ij.1)
      (fun ij => keyAt (aliases.map Prod.fst) ij.2)
      (fun ij => round2 (metersToMiles
        ((getVal res.routeCache (pkAt (aliases.map Prod.fst) ij)).getD 0)))
      (pairIndices (aliases.map Prod.fst).length) []
      (nodup_dirKeys hk hp) (fun ij _ => ⟨rfl, rfl⟩)
  have h3 : (pairIndices (aliases.map Prod.fst).length).flatMap (fun ij =>
      [(pk (keyAt (aliases.map Prod.fst) ij.1) (keyAt (aliases.map Prod.fst) ij.2),
        round2 (metersToMiles
          ((getVal res.routeCache (pkAt (aliases.map Prod.fst) ij)).getD 0))),
       (pk (keyAt (aliases.map Prod.fst) ij.2) (keyAt (aliases.map Prod.fst) ij.1),
        round2 (metersToMiles
          ((getVal res.routeCache (pkAt (aliases.map Prod.fst) ij)).getD 0)))]) =
      (pairIndices (aliases.map Prod.fst).length).flatMap
        (pairEntries env aliases gc₀ rc₀) := by
    refine flatMap_congr_mem ?_
    intro ij hij
    have hv : getVal res.routeCache (pkAt (aliases.map Prod.fst) ij)
        = some (stepMeters env rc₀ (aliases.map Prod.fst)
          (batchCoords env aliases gc₀) ij) :=
      runBatch_routeCache env aliases gc₀ rc₀ hk hp ij hij
    rw [hv]
    rfl
  have h4 : res.table = (pairIndices (aliases.map Prod.fst).length).flatMap
      (pairEntries env aliases gc₀ rc₀) := runBatch_table env aliases gc₀ rc₀ hk hp
  show (⟨(List.foldl (pairStep env' (aliases.map Prod.fst)
        (geocodePhase env' aliases res.geoCache).coords)
        ⟨res.routeCache, [], 0⟩ (pairIndices (aliases.map Prod.fst).length)).table,
      (geocodePhase env' aliases res.geoCache).geoCache,
      (List.foldl (pairStep env' (aliases.map Prod.fst)
        (geocodePhase env' aliases res.geoCache).coords)
        ⟨res.routeCache, [], 0⟩ (pairIndices (aliases.map Prod.fst).length)).routeCache,
      (geocodePhase env' aliases res.geoCache).requests +
        (List.foldl (pairStep env' (aliases.map Prod.fst)
          (geocodePhase env' aliases res.geoCache).coords)
          ⟨res.routeCache, [], 0⟩
          (pairIndices (aliases.map Prod.fst).length)).requests⟩ : RunResult)
    = ⟨res.table, res.geoCache, res.routeCache, 0⟩
  rw [hpl, hgp.1, hgp.2]
  dsimp only
  rw [h2.trans h3, ← h4]

theorem getVal_flatMap_pairs (A B : ℕ × ℕ → String) (v : ℕ × ℕ → ℚ) :
    ∀ ps : List (ℕ × ℕ),
      (ps.flatMap fun ij => [pk (A ij) (B ij), pk (B ij) (A ij)]).Nodup →
      ∀ ij ∈ ps,
        getVal (ps.flatMap fun ij =>
          [(pk (A ij) (B ij), v ij), (pk (B ij) (A ij), v ij)]) (pk (A ij) (B ij))
          = some (v ij) ∧
        getVal (ps.flatMap fun ij =>
          [(pk (A ij) (B ij), v ij), (pk (B ij) (A ij), v ij)]) (pk (B ij) (A ij))
          = some (v ij)
  | [], _, ij, hij => absurd hij (List.not_mem_nil ij)
  | ij' :: rest, hnd, ij, hij => by
    have hnd' := hnd
    simp only [List.flatMap_cons] at hnd'
    rw [List.nodup_append] at hnd'
    obtain ⟨hnd1, hnd2, hdisj⟩ := hnd'
    rw [List.flatMap_cons]
    rcases List.mem_cons.mp hij with he | ht
    · subst he
      have hne : pk (A ij) (B ij) ≠ pk (B ij) (A ij) := by
        intro he'
        simp [he'] at hnd1
      constructor
      · rw [getVal_append]
        simp [getVal]
      · rw [getVal_append]
        simp [getVal, fun h => hne h]
    · have hm1 : pk (A ij) (B ij) ∈
          rest.flatMap fun p => [pk (A p) (B p), pk (B p) (A p)] :=
        List.mem_flatMap_of_mem ht (by simp)
      have hm2 : pk (B ij) (A ij) ∈
          rest.flatMap fun p => [pk (A p) (B p), pk (B p) (A p)] :=
        List.mem_flatMap_of_mem ht (by simp)
      have hne1 : pk (A ij') (B ij') ≠ pk (A ij) (B ij) := fun he =>
        hdisj (by simp) (he ▸ hm1)
      have hne2 : pk (B ij') (A ij') ≠ pk (A ij) (B ij) := fun he =>
        hdisj (by simp) (he ▸ hm1)
      have hne3 : pk (A ij') (B ij') ≠ pk (B ij) (A ij) := fun he =>
        hdisj (by simp) (he ▸ hm2)
      have hne4 : pk (B ij') (A ij') ≠ pk (B ij) (A ij) := fun he =>
        hdisj (by simp) (he ▸ hm2)
      have ih := getVal_flatMap_pairs A B v rest hnd2 ij ht
      constructor
      · rw [getVal_append]
        simp only [getVal, if_neg hne1, if_neg hne2]
        exact ih.1
      · rw [getVal_append]
        simp only [getVal, if_neg hne3, if_neg hne4]
        exact ih.2

/-- After a batch run with distinct pipe-free identifiers, the table holds
under both directional keys of every pair exactly the pair's meter count
converted to miles and rounded to two decimals. -/
theorem runBatch_table_getVal (env : BatchEnv)
    (aliases : List (String × String)) (gc : GeoCache) (rc : RouteCache)
    (hk : (aliases.map Prod.fst).Nodup)
    (hp : ∀ k ∈ aliases.map Prod.fst, pipeFree k) :
    ∀ ij ∈ pairIndices (aliases.map Prod.fst).length,
      getVal (runBatch env aliases gc rc).table
          (pk (keyAt (aliases.map Prod.fst) ij.1) (keyAt (aliases.map Prod.fst) ij.2))
        = some (round2 (metersToMiles (stepMeters env rc (aliases.map Prod.fst)
            (batchCoords env aliases gc) ij))) ∧
      getVal (runBatch env aliases gc rc).table
          (pk (keyAt (aliases.map Prod.fst) ij.2) (keyAt (aliases.map Prod.fst) ij.1))
        = some (round2 (metersToMiles (stepMeters env rc (aliases.map Prod.fst)
            (batchCoords env aliases gc) ij))) := by
  intro ij hij
  have hg := getVal_flatMap_pairs
    (fun ij => keyAt (aliases.map Prod.fst) ij.1)
    (fun ij => keyAt (aliases.map Prod.fst) ij.2)
    (fun ij => round2 (metersToMiles (stepMeters env rc (aliases.map Prod.fst)
      (batchCoords env aliases gc) ij)))
    (pairIndices (aliases.map Prod.fst).length)
    (nodup_dirKeys hk hp) ij hij
  rw [runBatch_table env aliases gc rc hk hp]
  exact hg

/-! ### Interactive-tool lemmas -/

/-- The success path of `calculateMileage` with the round-trip box
unchecked: geocode every parsed location, request one route, render. -/
theorem calculateMileage_ok (env : WebEnv) (input : String)
    (htok : ¬(env.token = "" ∨ env.token = "YOUR_MAPBOX_ACCESS_TOKEN_HERE"))
    (hlen : 2 ≤ (parseLocations input).length) :
    calculateMileage env input false =
      ((.ok (if (env.routeNet ((parseLocations input).map (geocodeAddress env))).legs.length = 0
            then fallbackRows ((parseLocations input).map (geocodeAddress env))
              (env.routeNet ((parseLocations input).map (geocodeAddress env))).distance
            else legsRows ((parseLocations input).map (geocodeAddress env))
              (env.routeNet ((parseLocations input).map (geocodeAddress env))).legs)
        (round2 (metersToMiles
          (env.routeNet ((parseLocations input).map (geocodeAddress env))).distance))),
       ((parseLocations input).map (geocodeAddress env)).length + 1) := by
  unfold calculateMileage
  rw [if_neg (by omega), if_neg htok]
  rfl

theorem fallbackRows_length (g : List Geocoded) (D : ℚ) :
    (fallbackRows g D).length = g.length - 1 := by
  simp [fallbackRows]

theorem fallbackRows_miles (g : List Geocoded) (D : ℚ) :
    ∀ r ∈ fallbackRows g D, r.miles = round2 (metersToMiles D) := by
  intro r hr
  simp only [fallbackRows, List.mem_map, List.mem_range] at hr
  obtain ⟨i, _, rfl⟩ := hr
  rfl

theorem fallbackRows_getD (g : List Geocoded) (D : ℚ) (i : ℕ)
    (h : i < g.length - 1) :
    (fallbackRows g D).getD i ⟨0, "", "", 0⟩ =
      ⟨i + 1, (g.getD i ⟨"", 0, 0⟩).address, (g.getD (i + 1) ⟨"", 0, 0⟩).address,
        round2 (metersToMiles D)⟩ := by
  unfold fallbackRows
  rw [List.getD_eq_getElem?_getD, List.getElem?_map]
  rw [List.getElem?_range h]
  rfl

/-! ### Concrete two-decimal conversions -/

theorem round2_zero : round2 (metersToMiles 0) = 0 := by
  have h : round ((0 : ℚ) / 1609.344 * 100) = 0 := by
    norm_num [round_eq, Int.floor_eq_iff]
  simp only [round2, metersToMiles, h]
  norm_num

theorem round2_1000 : round2 (metersToMiles 1000) = 62 / 100 := by
  have h : round ((1000 : ℚ) / 1609.344 * 100) = 62 := by
    norm_num [round_eq, Int.floor_eq_iff]
  simp only [round2, metersToMiles, h]
  norm_num

theorem round2_2000 : round2 (metersToMiles 2000) = 124 / 100 := by
  have h : round ((2000 : ℚ) / 1609.344 * 100) = 124 := by
    norm_num [round_eq, Int.floor_eq_iff]
  simp only [round2, metersToMiles, h]
  norm_num

theorem round2_3000 : round2 (metersToMiles 3000) = 186 / 100 := by
  have h : round ((3000 : ℚ) / 1609.344 * 100) = 186 := by
    norm_num [round_eq, Int.floor_eq_iff]
  simp only [round2, metersToMiles, h]
  norm_num

theorem round2_5000 : round2 (metersToMiles 5000) = 311 / 100 := by
  have h : round ((5000 : ℚ) / 1609.344 * 100) = 311 := by
    norm_num [round_eq, Int.floor_eq_iff]
  simp only [round2, metersToMiles, h]
  norm_num

theorem round2_16093 : round2 (metersToMiles 16093) = 10 := by
  have h : round ((16093 : ℚ) / 1609.344 * 100) = 1000 := by
    norm_num [round_eq, Int.floor_eq_iff]
  simp only [round2, metersToMiles, h]
  norm_num

/-! ### Concrete network environments used as witnesses and
counterexamples -/

/-- A geocoding service placing every address at the origin together with a
routing service reporting a 0-meter distance for every pair (as happens
when two addresses resolve to the same point). -/
def envZero : BatchEnv := ⟨fun _ => ⟨0, 0⟩, fun _ _ => 0⟩

/-- A routing service reporting 16093 meters (10.00 miles) everywhere. -/
def envBig : BatchEnv := ⟨fun _ => ⟨0, 0⟩, fun _ _ => 16093⟩

/-- A routing service reporting 5000 meters everywhere. -/
def envFive : BatchEnv := ⟨fun _ => ⟨0, 0⟩, fun _ _ => 5000⟩

/-! ## Claim theorems -/

/-- C6: the batch Pair Enumerator, given an ordered sequence of N location
identifiers, enumerates every unordered pair of distinct identifiers
exactly once — no self-pairs, no duplicates — in ascending index order:
exactly the pairs `(i, j)` with `i < j < N`, ordered lexicographically, and
(for distinct identifiers) distinct identifier pairs with no identifier
paired with itself. -/
theorem C6_pair_enumerator (keys : List String) (hk : keys.Nodup) :
    (∀ i j : ℕ, (i, j) ∈ pairIndices keys.length ↔ i < j ∧ j < keys.length)
    ∧ (pairIndices keys.length).Pairwise lexLt
    ∧ (pairIndices keys.length).Nodup
    ∧ (∀ ij ∈ pairIndices keys.length, keyAt keys ij.1 ≠ keyAt keys ij.2)
    ∧ ((pairIndices keys.length).map
        (fun ij => (keyAt keys ij.1, keyAt keys ij.2))).Nodup
    ∧ (∀ A B : String, A ∈ keys → B ∈ keys → A ≠ B →
        ∃ ij ∈ pairIndices keys.length,
          (keyAt keys ij.1 = A ∧ keyAt keys ij.2 = B) ∨
          (keyAt keys ij.1 = B ∧ keyAt keys ij.2 = A)) := by
  refine ⟨fun i j => mem_pairIndices, pairwise_lexLt_pairIndices _,
    nodup_pairIndices _, ?_, nodup_map_keyPairs hk, ?_⟩
  · intro ij hij he
    obtain ⟨h12, h2⟩ := mem_pairIndices' hij
    have := keyAt_inj hk (by omega) (by omega) he
    omega
  · intro A B hA hB hAB
    have hiA : List.indexOf A keys < keys.length :=
      List.indexOf_lt_length.mpr hA
    have hiB : List.indexOf B keys < keys.length :=
      List.indexOf_lt_length.mpr hB
    have hgA : keyAt keys (List.indexOf A keys) = A := by
      unfold keyAt
      rw [List.getD_eq_getElem?_getD, List.getElem?_eq_getElem hiA]
      simp [List.getElem_indexOf]
    have hgB : keyAt keys (List.indexOf B keys) = B := by
      unfold keyAt
      rw [List.getD_eq_getElem?_getD, List.getElem?_eq_getElem hiB]
      simp [List.getElem_indexOf]
    have hne : List.indexOf A keys ≠ List.indexOf B keys := by
      intro he
      exact hAB (hgA.symm.trans (he ▸ hgB))
    rcases Nat.lt_or_ge (List.indexOf A keys) (List.indexOf B keys) with hlt | hge
    · exact ⟨(List.indexOf A keys, List.indexOf B keys),
        mem_pairIndices.mpr ⟨hlt, hiB⟩, Or.inl ⟨hgA, hgB⟩⟩
    · have hlt : List.indexOf B keys < List.indexOf A keys := by omega
      exact ⟨(List.indexOf B keys, List.indexOf A keys),
        mem_pairIndices.mpr ⟨hlt, hiA⟩, Or.inr ⟨hgB, hgA⟩⟩

/-- Witness for C6 at the actual identifier list of the batch script. -/
theorem C6_pair_enumerator_witness :
    (LOCATION_ALIAS.map Prod.fst).Nodup ∧
    ((∀ i j : ℕ, (i, j) ∈ pairIndices (LOCATION_ALIAS.map Prod.fst).length ↔
        i < j ∧ j < (LOCATION_ALIAS.map Prod.fst).length)
    ∧ (pairIndices (LOCATION_ALIAS.map Prod.fst).length).Pairwise lexLt
    ∧ (pairIndices (LOCATION_ALIAS.map Prod.fst).length).Nodup
    ∧ (∀ ij ∈ pairIndices (LOCATION_ALIAS.map Prod.fst).length,
        keyAt (LOCATION_ALIAS.map Prod.fst) ij.1 ≠
          keyAt (LOCATION_ALIAS.map Prod.fst) ij.2)
    ∧ ((pairIndices (LOCATION_ALIAS.map Prod.fst).length).map
        (fun ij => (keyAt (LOCATION_ALIAS.map Prod.fst) ij.1,
          keyAt (LOCATION_ALIAS.map Prod.fst) ij.2))).Nodup
    ∧ (∀ A B : String, A ∈ LOCATION_ALIAS.map Prod.fst →
        B ∈ LOCATION_ALIAS.map Prod.fst → A ≠ B →
        ∃ ij ∈ pairIndices (LOCATION_ALIAS.map Prod.fst).length,
          (keyAt (LOCATION_ALIAS.map Prod.fst) ij.1 = A ∧
            keyAt (LOCATION_ALIAS.map Prod.fst) ij.2 = B) ∨
          (keyAt (LOCATION_ALIAS.map Prod.fst) ij.1 = B ∧
            keyAt (LOCATION_ALIAS.map Prod.fst) ij.2 = A))) :=
  ⟨by decide, C6_pair_enumerator (LOCATION_ALIAS.map Prod.fst) (by decide)⟩

/-- C7: in the interactive tool, entered text with fewer than two non-empty
address lines is rejected with the error status
"Enter at least two locations." and the handler returns with zero network
requests issued. -/
theorem C7_too_few_locations (env : WebEnv) (input : String)
    (roundTrip : Bool) (h : (parseLocations input).length < 2) :
    calculateMileage env input roundTrip =
      (.err "Enter at least two locations.", 0) := by
  unfold calculateMileage
  rw [if_pos h]

/-- Witness for C7: a single address line is rejected without any request. -/
theorem C7_too_few_locations_witness :
    (parseLocations "123 Fake St, Springfield IL").length < 2 ∧
    calculateMileage ⟨"token", fun _ => (0, 0), fun _ => ⟨0, []⟩⟩
        "123 Fake St, Springfield IL" false =
      (.err "Enter at least two locations.", 0) :=
  ⟨by decide, C7_too_few_locations _ _ _ (by decide)⟩

/-- C10: a batch cache entry is honored only when its stored value is
truthy.  A cached meter count of 0 (falsy) or a cached `null` coordinate is
treated as a miss: the helper issues a fresh external lookup, stores and
returns the fresh value instead of the cached one.  Truthy entries (a
nonzero count, a stored coordinate object) are returned without any
request. -/
theorem C10_falsy_cache_is_miss :
    (∀ (env : BatchEnv) (rc : RouteCache) (cA cB : Coord) (k : String),
      getVal rc k = some 0 →
        getMeters env rc cA cB k
          = (env.routeNet cA cB, setKey rc k (env.routeNet cA cB), 1))
    ∧ (∀ (env : BatchEnv) (rc : RouteCache) (cA cB : Coord) (k : String)
        (m : ℚ), getVal rc k = some m → m ≠ 0 →
        getMeters env rc cA cB k = (m, rc, 0))
    ∧ (∀ (env : BatchEnv) (gc : GeoCache) (a : String),
      getVal gc a = some none →
        geocode env gc a
          = (env.geoNet a, setKey gc a (some (env.geoNet a)), 1))
    ∧ (∀ (env : BatchEnv) (gc : GeoCache) (a : String) (c : Coord),
      getVal gc a = some (some c) → geocode env gc a = (c, gc, 0)) := by
  refine ⟨?_, ?_, ?_, ?_⟩
  · intro env rc cA cB k h
    simp [getMeters, h]
  · intro env rc cA cB k m h hm
    simp [getMeters, h, hm]
  · intro env gc a h
    simp [geocode, h]
  · intro env gc a c h
    simp [geocode, h]

/-- Witness for C10: a cached 0-meter distance is refetched and
overwritten; a cached `null` coordinate is refetched; truthy entries are
served from cache. -/
theorem C10_falsy_cache_is_miss_witness :
    getMeters envBig [(pk "HOME" "LS", 0)] ⟨0, 0⟩ ⟨0, 0⟩ (pk "HOME" "LS")
      = (16093, [(pk "HOME" "LS", 16093)], 1)
    ∧ getMeters envBig [(pk "HOME" "LS", 5)] ⟨0, 0⟩ ⟨0, 0⟩ (pk "HOME" "LS")
      = (5, [(pk "HOME" "LS", 5)], 0)
    ∧ geocode envBig [("123 Fake St", none)] "123 Fake St"
      = (⟨0, 0⟩, [("123 Fake St", some ⟨0, 0⟩)], 1)
    ∧ geocode envBig [("123 Fake St", some ⟨7, 8⟩)] "123 Fake St"
      = (⟨7, 8⟩, [("123 Fake St", some ⟨7, 8⟩)], 0) := by
  refine ⟨?_, ?_, ?_, ?_⟩
  · rw [C10_falsy_cache_is_miss.1 envBig _ _ _ _ (by decide)]
    decide
  · rw [C10_falsy_cache_is_miss.2.1 envBig _ _ _ _ 5 (by decide) (by decide)]
  · rw [C10_falsy_cache_is_miss.2.2.1 envBig _ _ (by decide)]
    decide
  · rw [C10_falsy_cache_is_miss.2.2.2 envBig _ _ ⟨7, 8⟩ (by decide)]

/-- C2: in every table state reachable in the batch pair loop, the two
directional keys of a pair are populated together with equal values (never
one without the other), and the final table holds both `A|B` and `B|A` with
the same value for every processed pair. -/
theorem C2_table_both_directions (env : BatchEnv)
    (aliases : List (String × String)) (gc : GeoCache) (rc : RouteCache)
    (hp : ∀ k ∈ aliases.map Prod.fst, pipeFree k) :
    (∀ t ∈ batchTables env aliases gc rc, SymTable t)
    ∧ (∀ ij ∈ pairIndices (aliases.map Prod.fst).length,
        ∃ v : ℚ,
          getVal (runBatch env aliases gc rc).table
            (pk (keyAt (aliases.map Prod.fst) ij.1)
              (keyAt (aliases.map Prod.fst) ij.2)) = some v ∧
          getVal (runBatch env aliases gc rc).table
            (pk (keyAt (aliases.map Prod.fst) ij.2)
              (keyAt (aliases.map Prod.fst) ij.1)) = some v) := by
  constructor
  · intro t ht
    exact symTable_loopStates hp (pairIndices (aliases.map Prod.fst).length)
      ⟨rc, [], 0⟩ symTable_nil t ht
  · intro ij hij
    have hsome := (@pairLoop_present env (aliases.map Prod.fst)
      ((geocodePhase env aliases gc).coords)
      (pairIndices (aliases.map Prod.fst).length) ⟨rc, [], 0⟩ ij hij).1
    have hsym : SymTable ((pairIndices (aliases.map Prod.fst).length).foldl
        (pairStep env (aliases.map Prod.fst)
          ((geocodePhase env aliases gc).coords)) ⟨rc, [], 0⟩).table :=
      symTable_foldl hp _ _ symTable_nil
    obtain ⟨v, hv⟩ := Option.isSome_iff_exists.mp hsome
    exact ⟨v, hv, ((hsym (keyAt (aliases.map Prod.fst) ij.1)
      (keyAt (aliases.map Prod.fst) ij.2) (keyAt_pipeFree hp ij.1)
      (keyAt_pipeFree hp ij.2)).symm).trans hv⟩

/-- Witness for C2 at the batch script's own alias table and a concrete
environment. -/
theorem C2_table_both_directions_witness :
    (∀ k ∈ LOCATION_ALIAS.map Prod.fst, pipeFree k) ∧
    ((∀ t ∈ batchTables envFive LOCATION_ALIAS [] [], SymTable t)
    ∧ (∀ ij ∈ pairIndices (LOCATION_ALIAS.map Prod.fst).length,
        ∃ v : ℚ,
          getVal (runBatch envFive LOCATION_ALIAS [] []).table
            (pk (keyAt (LOCATION_ALIAS.map Prod.fst) ij.1)
              (keyAt (LOCATION_ALIAS.map Prod.fst) ij.2)) = some v ∧
          getVal (runBatch envFive LOCATION_ALIAS [] []).table
            (pk (keyAt (LOCATION_ALIAS.map Prod.fst) ij.2)
              (keyAt (LOCATION_ALIAS.map Prod.fst) ij.1)) = some v)) :=
  ⟨by decide, C2_table_both_directions envFive LOCATION_ALIAS [] [] (by decide)⟩

/-- C3: for N distinct pipe-free location identifiers, the batch output
table has exactly N·(N−1) keyed entries — all keys distinct, two per
unordered pair — and no self-pair key `A|A`. -/
theorem C3_table_count (env : BatchEnv) (aliases : List (String × String))
    (gc : GeoCache) (rc : RouteCache)
    (hk : (aliases.map Prod.fst).Nodup)
    (hp : ∀ k ∈ aliases.map Prod.fst, pipeFree k) :
    (runBatch env aliases gc rc).table.length
      = (aliases.map Prod.fst).length * ((aliases.map Prod.fst).length - 1)
    ∧ ((runBatch env aliases gc rc).table.map Prod.fst).Nodup
    ∧ (∀ k ∈ aliases.map Prod.fst,
        getVal (runBatch env aliases gc rc).table (pk k k) = none) := by
  rw [runBatch_table env aliases gc rc hk hp]
  have hlen : ((pairIndices (aliases.map Prod.fst).length).flatMap
      (pairEntries env aliases gc rc)).length
      = 2 * (pairIndices (aliases.map Prod.fst).length).length :=
    length_flatMap_pairs
      (fun ij => keyAt (aliases.map Prod.fst) ij.1)
      (fun ij => keyAt (aliases.map Prod.fst) ij.2)
      (fun ij => round2 (metersToMiles (stepMeters env rc (aliases.map Prod.fst)
        (batchCoords env aliases gc) ij)))
      (pairIndices (aliases.map Prod.fst).length)
  have hkeys : ((pairIndices (aliases.map Prod.fst).length).flatMap
      (pairEntries env aliases gc rc)).map Prod.fst
      = (pairIndices (aliases.map Prod.fst).length).flatMap fun ij =>
        [pk (keyAt (aliases.map Prod.fst) ij.1) (keyAt (aliases.map Prod.fst) ij.2),
         pk (keyAt (aliases.map Prod.fst) ij.2) (keyAt (aliases.map Prod.fst) ij.1)] := by
    rw [List.map_flatMap]
    rfl
  refine ⟨?_, ?_, ?_⟩
  · have := two_mul_length_pairIndices (aliases.map Prod.fst).length
    omega
  · rw [hkeys]
    exact nodup_dirKeys hk hp
  · intro k hkmem
    refine getVal_eq_none ?_
    intro p hpmem
    obtain ⟨ij, hij, hpe⟩ := List.mem_flatMap.mp hpmem
    obtain ⟨h12, h2⟩ := mem_pairIndices' hij
    have hAB : keyAt (aliases.map Prod.fst) ij.1 ≠
        keyAt (aliases.map Prod.fst) ij.2 := by
      intro he
      have := keyAt_inj hk (by omega) (by omega) he
      omega
    rcases List.mem_pair.mp hpe with rfl | rfl
    · intro he
      obtain ⟨he1, he2⟩ := pk_inj (keyAt_pipeFree hp ij.1) (hp k hkmem)
        (by simpa using he)
      exact hAB (he1.trans he2.symm)
    · intro he
      obtain ⟨he1, he2⟩ := pk_inj (keyAt_pipeFree hp ij.2) (hp k hkmem)
        (by simpa using he)
      exact hAB (he2.trans he1.symm)

/-- Witness for C3 at the batch script's own alias table (N = 4, hence 12
keyed entries). -/
theorem C3_table_count_witness :
    ((LOCATION_ALIAS.map Prod.fst).Nodup ∧
      ∀ k ∈ LOCATION_ALIAS.map Prod.fst, pipeFree k)
    ∧ ((runBatch envFive LOCATION_ALIAS [] []).table.length
        = (LOCATION_ALIAS.map Prod.fst).length
          * ((LOCATION_ALIAS.map Prod.fst).length - 1)
      ∧ ((runBatch envFive LOCATION_ALIAS [] []).table.map Prod.fst).Nodup
      ∧ (∀ k ∈ LOCATION_ALIAS.map Prod.fst,
          getVal (runBatch envFive LOCATION_ALIAS [] []).table (pk k k) = none)) :=
  ⟨⟨by decide, by decide⟩,
    C3_table_count envFive LOCATION_ALIAS [] [] (by decide) (by decide)⟩

/-- Counterexample to C1 as stated: both cache files produced by a prior
run cover every address and every pair key, yet — because a cached
0-meter distance is falsy and is refetched — the re-run issues 6 routing
requests and produces a different table when the service now reports
different distances. -/
theorem C1_warm_cache_rerun_cex :
    geoCovered (runBatch envZero LOCATION_ALIAS [] []).geoCache
      LOCATION_ALIAS = true
    ∧ routeCovered (runBatch envZero LOCATION_ALIAS [] []).routeCache
      (LOCATION_ALIAS.map Prod.fst) = true
    ∧ (runBatch envBig LOCATION_ALIAS
        (runBatch envZero LOCATION_ALIAS [] []).geoCache
        (runBatch envZero LOCATION_ALIAS [] []).routeCache).requests = 6
    ∧ (runBatch envBig LOCATION_ALIAS
        (runBatch envZero LOCATION_ALIAS [] []).geoCache
        (runBatch envZero LOCATION_ALIAS [] []).routeCache).table
      ≠ (runBatch envZero LOCATION_ALIAS [] []).table := by
  refine ⟨by decide, by decide, by decide, ?_⟩
  have h0 : getVal (runBatch envZero LOCATION_ALIAS [] []).table
      (pk "HOME" "LS") = some (round2 (metersToMiles 0)) :=
    (runBatch_table_getVal envZero LOCATION_ALIAS [] []
      (by decide) (by decide) (0, 1) (by decide)).1
  have h1 : getVal (runBatch envBig LOCATION_ALIAS
      (runBatch envZero LOCATION_ALIAS [] []).geoCache
      (runBatch envZero LOCATION_ALIAS [] []).routeCache).table
      (pk "HOME" "LS") = some (round2 (metersToMiles 16093)) :=
    (runBatch_table_getVal envBig LOCATION_ALIAS
      (runBatch envZero LOCATION_ALIAS [] []).geoCache
      (runBatch envZero LOCATION_ALIAS [] []).routeCache
      (by decide) (by decide) (0, 1) (by decide)).1
  intro he
  rw [he, h0] at h1
  have h2 : round2 (metersToMiles 0) = round2 (metersToMiles 16093) :=
    Option.some.inj h1
  rw [round2_zero, round2_16093] at h2
  norm_num at h2

/-- C1 as amended: re-running the batch script on caches left by a prior
run issues zero network requests and reproduces the prior run's table (and
caches) exactly, provided every cached meter count is truthy, i.e.
nonzero — a cached 0-meter distance is falsy in JS and would be
refetched. -/
theorem C1_warm_cache_rerun (env env' : BatchEnv) (gc₀ : GeoCache)
    (rc₀ : RouteCache)
    (h : ∀ p ∈ (runBatch env LOCATION_ALIAS gc₀ rc₀).routeCache, p.2 ≠ 0) :
    runBatch env' LOCATION_ALIAS
        (runBatch env LOCATION_ALIAS gc₀ rc₀).geoCache
        (runBatch env LOCATION_ALIAS gc₀ rc₀).routeCache =
      { table := (runBatch env LOCATION_ALIAS gc₀ rc₀).table
        geoCache := (runBatch env LOCATION_ALIAS gc₀ rc₀).geoCache
        routeCache := (runBatch env LOCATION_ALIAS gc₀ rc₀).routeCache
        requests := 0 } :=
  runBatch_warm_rerun env env' LOCATION_ALIAS gc₀ rc₀ (by decide) (by decide) h

/-- Witness for the amended C1: after a cold run against a 5000-meter
routing service, a re-run (even against a different service) issues zero
requests and reproduces the same table. -/
theorem C1_warm_cache_rerun_witness :
    (∀ p ∈ (runBatch envFive LOCATION_ALIAS [] []).routeCache, p.2 ≠ 0)
    ∧ runBatch envBig LOCATION_ALIAS
        (runBatch envFive LOCATION_ALIAS [] []).geoCache
        (runBatch envFive LOCATION_ALIAS [] []).routeCache =
      { table := (runBatch envFive LOCATION_ALIAS [] []).table
        geoCache := (runBatch envFive LOCATION_ALIAS [] []).geoCache
        routeCache := (runBatch envFive LOCATION_ALIAS [] []).routeCache
        requests := 0 } :=
  ⟨by decide, C1_warm_cache_rerun envFive envBig [] [] (by decide)⟩

/-- Counterexample to C9 as stated: with a routing service reporting 5000
meters, the batch output table stores `3.11` (miles, two decimals) under
`HOME|LS`, not the 5000-meter count the service returned — the raw meter
count lives in the route cache instead. -/
theorem C9_distance_record_cex :
    getVal (runBatch envFive LOCATION_ALIAS [] []).table (pk "HOME" "LS")
      = some (311 / 100)
    ∧ getVal (runBatch envFive LOCATION_ALIAS [] []).routeCache
      (pk "HOME" "LS") = some 5000
    ∧ (311 / 100 : ℚ) ≠ 5000 := by
  have h : getVal (runBatch envFive LOCATION_ALIAS [] []).table
      (pk "HOME" "LS") = some (round2 (metersToMiles 5000)) :=
    (runBatch_table_getVal envFive LOCATION_ALIAS [] []
      (by decide) (by decide) (0, 1) (by decide)).1
  rw [round2_5000] at h
  exact ⟨h, by decide, by norm_num⟩

/-- C9 as amended: each value stored in the batch output table under the
two directional keys `A|B` and `B|A` is the pair's meter count as obtained
from the routing service (or its cache) converted to miles — divided by
1609.344 and rounded to two decimals; the raw meter count itself is what is
stored in the route cache under the pair key. -/
theorem C9_table_stores_rounded_miles (env : BatchEnv)
    (aliases : List (String × String)) (gc : GeoCache) (rc : RouteCache)
    (hk : (aliases.map Prod.fst).Nodup)
    (hp : ∀ k ∈ aliases.map Prod.fst, pipeFree k) :
    ∀ ij ∈ pairIndices (aliases.map Prod.fst).length,
      ∃ m : ℚ,
        getVal (runBatch env aliases gc rc).routeCache
          (pk (keyAt (aliases.map Prod.fst) ij.1)
            (keyAt (aliases.map Prod.fst) ij.2)) = some m
        ∧ getVal (runBatch env aliases gc rc).table
          (pk (keyAt (aliases.map Prod.fst) ij.1)
            (keyAt (aliases.map Prod.fst) ij.2))
          = some (round2 (metersToMiles m))
        ∧ getVal (runBatch env aliases gc rc).table
          (pk (keyAt (aliases.map Prod.fst) ij.2)
            (keyAt (aliases.map Prod.fst) ij.1))
          = some (round2 (metersToMiles m)) := by
  intro ij hij
  exact ⟨stepMeters env rc (aliases.map Prod.fst)
      (batchCoords env aliases gc) ij,
    runBatch_routeCache env aliases gc rc hk hp ij hij,
    (runBatch_table_getVal env aliases gc rc hk hp ij hij).1,
    (runBatch_table_getVal env aliases gc rc hk hp ij hij).2⟩

/-- Witness for the amended C9 at the batch script's own alias table. -/
theorem C9_table_stores_rounded_miles_witness :
    ((LOCATION_ALIAS.map Prod.fst).Nodup ∧
      ∀ k ∈ LOCATION_ALIAS.map Prod.fst, pipeFree k)
    ∧ (∀ ij ∈ pairIndices (LOCATION_ALIAS.map Prod.fst).length,
        ∃ m : ℚ,
          getVal (runBatch envFive LOCATION_ALIAS [] []).routeCache
            (pk (keyAt (LOCATION_ALIAS.map Prod.fst) ij.1)
              (keyAt (LOCATION_ALIAS.map Prod.fst) ij.2)) = some m
          ∧ getVal (runBatch envFive LOCATION_ALIAS [] []).table
            (pk (keyAt (LOCATION_ALIAS.map Prod.fst) ij.1)
              (keyAt (LOCATION_ALIAS.map Prod.fst) ij.2))
            = some (round2 (metersToMiles m))
          ∧ getVal (runBatch envFive LOCATION_ALIAS [] []).table
            (pk (keyAt (LOCATION_ALIAS.map Prod.fst) ij.2)
              (keyAt (LOCATION_ALIAS.map Prod.fst) ij.1))
            = some (round2 (metersToMiles m))) :=
  ⟨⟨by decide, by decide⟩,
    C9_table_stores_rounded_miles envFive LOCATION_ALIAS [] []
      (by decide) (by decide)⟩

/-- A configured interactive tool whose routing service reports a total
of 5000 meters with an empty legs list. -/
def envWeb5000 : WebEnv := ⟨"token", fun _ => (0, 0), fun _ => ⟨5000, []⟩⟩

/-- A configured interactive tool whose routing service reports legs of
1000 and 2000 meters with a 3000-meter total. -/
def envWeb3000 : WebEnv :=
  ⟨"token", fun _ => (0, 0), fun _ => ⟨3000, [⟨1000⟩, ⟨2000⟩]⟩⟩

theorem geocoded_getD_address (env : WebEnv) (l : List String) (i : ℕ)
    (h : i < l.length) :
    ((l.map (geocodeAddress env)).getD i ⟨"", 0, 0⟩).address = l.getD i "" := by
  rw [List.getD_eq_getElem?_getD, List.getD_eq_getElem?_getD,
    List.getElem?_map, List.getElem?_eq_getElem h]
  rfl

/-- C4: when the routing response for K geocoded coordinates has an empty
legs list and total distance D, the rendered table has exactly K−1
synthetic rows, each showing the full total D converted to miles (the
total is not split). -/
theorem C4_empty_legs_fallback (env : WebEnv) (input : String) (D : ℚ)
    (htok : ¬(env.token = "" ∨ env.token = "YOUR_MAPBOX_ACCESS_TOKEN_HERE"))
    (hlen : 2 ≤ (parseLocations input).length)
    (hroute : env.routeNet ((parseLocations input).map (geocodeAddress env))
      = ⟨D, []⟩) :
    (calculateMileage env input false).1
      = .ok (fallbackRows ((parseLocations input).map (geocodeAddress env)) D)
          (round2 (metersToMiles D))
    ∧ (fallbackRows ((parseLocations input).map (geocodeAddress env)) D).length
      = (parseLocations input).length - 1
    ∧ (∀ r ∈ fallbackRows ((parseLocations input).map (geocodeAddress env)) D,
        r.miles = round2 (metersToMiles D)) := by
  refine ⟨?_, ?_, fallbackRows_miles _ _⟩
  · rw [calculateMileage_ok env input htok hlen]
    dsimp only
    rw [hroute]
    rfl
  · rw [fallbackRows_length, List.length_map]

/-- Witness for C4: three coordinates, empty legs, total 5000 m — exactly
2 synthetic rows, each showing 5000 m converted to miles (3.11). -/
theorem C4_empty_legs_fallback_witness :
    (2 ≤ (parseLocations "A\nB\nC").length
      ∧ (parseLocations "A\nB\nC").length = 3
      ∧ round2 (metersToMiles 5000) = 311 / 100)
    ∧ ((calculateMileage envWeb5000 "A\nB\nC" false).1
        = .ok (fallbackRows
            ((parseLocations "A\nB\nC").map (geocodeAddress envWeb5000)) 5000)
          (round2 (metersToMiles 5000))
      ∧ (fallbackRows
          ((parseLocations "A\nB\nC").map (geocodeAddress envWeb5000)) 5000).length
        = (parseLocations "A\nB\nC").length - 1
      ∧ (∀ r ∈ fallbackRows
          ((parseLocations "A\nB\nC").map (geocodeAddress envWeb5000)) 5000,
          r.miles = round2 (metersToMiles 5000))) :=
  ⟨⟨by decide, by decide, round2_5000⟩,
    C4_empty_legs_fallback envWeb5000 "A\nB\nC" 5000 (by decide) (by decide) rfl⟩

/-- Counterexample to C5 as stated: on an empty legs list the interactive
tool does not substitute a single synthetic leg — with 3 coordinates it
renders 2 synthetic rows, not 1. -/
theorem C5_single_synthetic_leg_cex :
    ((calculateMileage envWeb5000 "A\nB\nC" false).1.rowsOf).map List.length
      = some 2
    ∧ (2 : ℕ) ≠ 1 :=
  ⟨by decide, by decide⟩

/-- C5 as amended: when the external routing service returns no legs, the
implementation substitutes one synthetic leg per consecutive pair of
geocoded coordinates (K−1 legs for K coordinates; a single one only when
K = 2) and attributes the full route distance to every synthetic leg. -/
theorem C5_fallback_synthetic_legs (env : WebEnv) (input : String) (D : ℚ)
    (htok : ¬(env.token = "" ∨ env.token = "YOUR_MAPBOX_ACCESS_TOKEN_HERE"))
    (hlen : 2 ≤ (parseLocations input).length)
    (hroute : env.routeNet ((parseLocations input).map (geocodeAddress env))
      = ⟨D, []⟩) :
    ∃ rows : List LegRow,
      (calculateMileage env input false).1 = .ok rows (round2 (metersToMiles D))
      ∧ rows.length = (parseLocations input).length - 1
      ∧ ∀ i : ℕ, i < rows.length →
          rows.getD i ⟨0, "", "", 0⟩ =
            ⟨i + 1, (parseLocations input).getD i "",
              (parseLocations input).getD (i + 1) "",
              round2 (metersToMiles D)⟩ := by
  refine ⟨fallbackRows ((parseLocations input).map (geocodeAddress env)) D,
    ?_, ?_, ?_⟩
  · rw [calculateMileage_ok env input htok hlen]
    dsimp only
    rw [hroute]
    rfl
  · rw [fallbackRows_length, List.length_map]
  · intro i hi
    rw [fallbackRows_length, List.length_map] at hi
    rw [fallbackRows_getD _ _ _ (by rw [List.length_map]; omega),
      geocoded_getD_address env _ _ (by omega),
      geocoded_getD_address env _ _ (by omega)]

/-- Witness for the amended C5: three coordinates, empty legs — two
synthetic rows, row i joining stop i to stop i+1, each carrying the full
5000-meter distance. -/
theorem C5_fallback_synthetic_legs_witness :
    (2 ≤ (parseLocations "A\nB\nC").length)
    ∧ (∃ rows : List LegRow,
        (calculateMileage envWeb5000 "A\nB\nC" false).1
          = .ok rows (round2 (metersToMiles 5000))
        ∧ rows.length = (parseLocations "A\nB\nC").length - 1
        ∧ ∀ i : ℕ, i < rows.length →
            rows.getD i ⟨0, "", "", 0⟩ =
              ⟨i + 1, (parseLocations "A\nB\nC").getD i "",
                (parseLocations "A\nB\nC").getD (i + 1) "",
                round2 (metersToMiles 5000)⟩) :=
  ⟨by decide, C5_fallback_synthetic_legs envWeb5000 "A\nB\nC" 5000
    (by decide) (by decide) rfl⟩

/-- C8: for a routing response with legs of 1000 m and 2000 m and total
3000 m, the rendered rows show 0.62 and 1.24 miles in that order and the
displayed grand total is 1.86 miles (exact two-decimal rounding of
division by 1609.344, hence within the claimed ±0.01). -/
theorem C8_legs_rendering (env : WebEnv) (input : String)
    (htok : ¬(env.token = "" ∨ env.token = "YOUR_MAPBOX_ACCESS_TOKEN_HERE"))
    (hlen : 2 ≤ (parseLocations input).length)
    (hroute : env.routeNet ((parseLocations input).map (geocodeAddress env))
      = ⟨3000, [⟨1000⟩, ⟨2000⟩]⟩) :
    (calculateMileage env input false).1
      = .ok (legsRows ((parseLocations input).map (geocodeAddress env))
          [⟨1000⟩, ⟨2000⟩])
        (round2 (metersToMiles 3000))
    ∧ (legsRows ((parseLocations input).map (geocodeAddress env))
        [⟨1000⟩, ⟨2000⟩]).map LegRow.miles = [62 / 100, 124 / 100]
    ∧ round2 (metersToMiles 3000) = 186 / 100 := by
  refine ⟨?_, ?_, round2_3000⟩
  · rw [calculateMileage_ok env input htok hlen]
    dsimp only
    rw [hroute]
    rfl
  · have h : (legsRows ((parseLocations input).map (geocodeAddress env))
        [⟨1000⟩, ⟨2000⟩]).map LegRow.miles
        = [round2 (metersToMiles 1000), round2 (metersToMiles 2000)] := rfl
    rw [h, round2_1000, round2_2000]

/-- Witness for C8 at a concrete configured environment and three entered
addresses. -/
theorem C8_legs_rendering_witness :
    (2 ≤ (parseLocations "A\nB\nC").length)
    ∧ ((calculateMileage envWeb3000 "A\nB\nC" false).1
        = .ok (legsRows ((parseLocations "A\nB\nC").map
            (geocodeAddress envWeb3000)) [⟨1000⟩, ⟨2000⟩])
          (round2 (metersToMiles 3000))
      ∧ (legsRows ((parseLocations "A\nB\nC").map (geocodeAddress envWeb3000))
          [⟨1000⟩, ⟨2000⟩]).map LegRow.miles = [62 / 100, 124 / 100]
      ∧ round2 (metersToMiles 3000) = 186 / 100) :=
  ⟨by decide, C8_legs_rendering envWeb3000 "A\nB\nC" (by decide) (by decide) rfl⟩

end Mileage
